import Mathlib

/-!
Verification of the pick/shipment synchronization core of the
wms-warehouse-management repository.

The shallow embedding models the shared SQL store as an explicit `DB`
state (lists of rows plus identity counters) and translates the
operations of `app/shipment.py` and `app/backorder.py` into state
transformers.  `GETDATE()` is modelled by an explicit `DateTime`
argument and `getpass.getuser()` by an explicit user argument.
Fallible operations (a Python `fetchone()` unpacking that would raise
on a missing row) return `Option`.
-/

namespace WMS

/-- A SQL `DATETIME` value: the calendar date (`CAST(x AS DATE)`) plus a
tick making values on the same day distinguishable. -/
structure DateTime where
  day : String
  tick : Nat
deriving DecidableEq

/-- One row of `dbo.shipment_header` (DDL in `app/shipment.py`,
`_create_tables`).  `en_route` is updated by `set_trip_closed` and is
part of the live schema. -/
structure HeaderRow where
  id : Nat
  trip_date : String
  order_no : String
  customer_code : String
  customer_name : String
  region : String
  address1 : String
  pkgs_total : Int
  pkgs_loaded : Int
  closed : Bool
  en_route : Bool
  loaded_at : Option DateTime
  invoice_root : Option String
  qr_token : Option String
  printed : Bool
  created_at : DateTime
deriving DecidableEq

/-- One row of `dbo.shipment_loaded`. -/
structure LoadedRow where
  trip_id : Nat
  pkg_no : Int
  loaded : Bool
  loaded_by : Option String
  loaded_time : Option DateTime
deriving DecidableEq

/-- One row of `dbo.shipment_lines` (DDL in `app/backorder.py`). -/
structure ShipmentLineRow where
  invoice_no : String
  item_code : String
  warehouse_id : Int
  invoiced_qty : Rat
  qty_shipped : Rat
  loaded : Bool
  last_update : DateTime
deriving DecidableEq

/-- One row of `dbo.backorders`. -/
structure BackorderRow where
  id : Nat
  order_no : String
  line_id : Int
  warehouse_id : Int
  item_code : String
  qty_missing : Rat
  eta_date : Option String
  fulfilled : Bool
  created_at : DateTime
  fulfilled_at : Option DateTime
deriving DecidableEq

/-- One row of the `USER_ACTIVITY` audit table. -/
structure AuditRow where
  username : String
  action : String
  details : String
  order_no : String
deriving DecidableEq

/-- The shared store: the five tables the claims touch plus the
`IDENTITY` counters of `shipment_header` and `backorders`. -/
structure DB where
  headers : List HeaderRow
  loadedRows : List LoadedRow
  shipmentLines : List ShipmentLineRow
  backorders : List BackorderRow
  audit : List AuditRow
  nextHeaderId : Nat
  nextBackorderId : Nat
deriving DecidableEq

/-- The store right after `_create_tables` / `create_tables`: empty
tables, identity counters starting at 1. -/
def initDB : DB :=
  { headers := [], loadedRows := [], shipmentLines := [], backorders := [],
    audit := [], nextHeaderId := 1, nextBackorderId := 1 }

/-- `SELECT ... FROM shipment_header WHERE id = ?` (first row). -/
def getHeader (db : DB) (trip_id : Nat) : Option HeaderRow :=
  db.headers.find? (fun h => h.id == trip_id)

/-- Key predicate of the `MERGE` in `upsert_header`:
`trip_date = ? AND order_no = ?`. -/
def headerKey (trip_date order_no : String) (h : HeaderRow) : Bool :=
  h.trip_date == trip_date && h.order_no == order_no

/-- Lookup of a header row by its `(trip_date, order_no)` unique key. -/
def getHeaderByKey (db : DB) (trip_date order_no : String) : Option HeaderRow :=
  db.headers.find? (headerKey trip_date order_no)

/-- The `WHEN MATCHED THEN UPDATE` branch of the `MERGE` in
`upsert_header`: only grow `pkgs_total`
(`CASE WHEN ? > tgt.pkgs_total THEN ? ELSE tgt.pkgs_total END`),
reset `closed` to 0, and fill `invoice_root` only when it was NULL
(`COALESCE(tgt.invoice_root, ?)`). -/
def upsertRow (pkgs_total : Int) (invoice_root : Option String)
    (h : HeaderRow) : HeaderRow :=
  { h with
    pkgs_total := if pkgs_total > h.pkgs_total then pkgs_total else h.pkgs_total,
    closed := false,
    invoice_root := match h.invoice_root with
      | some r => some r
      | none => invoice_root }

/-- `upsert_header` (app/shipment.py, lines 125-163): a `MERGE` on
`(trip_date, order_no)`.  When matched it applies `upsertRow`; when
not matched it inserts a new row; `pkgs_loaded`, `closed`, `printed`
take their DDL defaults and `created_at` takes `GETDATE()`. -/
def upsert_header (order_no trip_date : String) (pkgs_total : Int)
    (customer_code customer_name region address1 : String)
    (invoice_root : Option String) (now : DateTime) (db : DB) : DB :=
  if db.headers.any (headerKey trip_date order_no) then
    { db with headers := db.headers.map (fun h =>
        if headerKey trip_date order_no h then upsertRow pkgs_total invoice_root h
        else h) }
  else
    { db with
      headers := db.headers ++
        [{ id := db.nextHeaderId, trip_date := trip_date, order_no := order_no,
           customer_code := customer_code, customer_name := customer_name,
           region := region, address1 := address1,
           pkgs_total := pkgs_total, pkgs_loaded := 0, closed := false,
           en_route := false, loaded_at := none, invoice_root := invoice_root,
           qr_token := none, printed := false, created_at := now }],
      nextHeaderId := db.nextHeaderId + 1 }

/-- `set_trip_closed` (app/shipment.py, lines 172-196): updates
`closed`, `en_route` and (when closing) `loaded_at` on the header, then
re-reads the header (`fetchone()` raises when the trip id does not
exist, modelled as `none`) and, when closing, writes a `USER_ACTIVITY`
row whose action distinguishes `pkgs_loaded == pkgs_total` from an
incomplete manual close.  `setClosedRow` is its
`UPDATE shipment_header SET closed = ?, en_route = ?, loaded_at = CASE
WHEN ?=1 THEN GETDATE() ELSE loaded_at END WHERE id = ?`. -/
def setClosedRow (trip_id : Nat) (closed : Bool) (now : DateTime)
    (h : HeaderRow) : HeaderRow :=
  if h.id == trip_id then
    { h with closed := closed, en_route := closed,
             loaded_at := if closed then some now else h.loaded_at }
  else h

def set_trip_closed (trip_id : Nat) (closed : Bool) (user : String)
    (now : DateTime) (db : DB) : Option DB :=
  let db1 : DB :=
    { db with headers := db.headers.map (setClosedRow trip_id closed now) }
  match getHeader db1 trip_id with
  | none => none
  | some h =>
    if closed then
      let action : String :=
        if h.pkgs_loaded == h.pkgs_total then "TRIP_AUTO_CLOSED"
        else "TRIP_MANUAL_CLOSED_INCOMPLETE"
      some { db1 with audit := db1.audit ++
        (db1.headers.filter (fun g => g.id == trip_id)).map (fun g =>
          { username := user, action := action,
            details := toString h.pkgs_loaded ++ "/" ++ toString h.pkgs_total,
            order_no := g.order_no }) }
    else
      some db1

/-- Modelled from the spec: the database trigger `trg_loaded_aiu` is
not part of the repository (only the comment in `mark_loaded` names
it); per §3/§9 of the specification it maintains
`pkgs_loaded(trip) == |{pkg_no : PackageLoad.loaded = 1 for that trip}|`.
`loadedSet rows t` is that set of distinct loaded package numbers. -/
def loadedSet (rows : List LoadedRow) (t : Nat) : Finset Int :=
  match rows with
  | [] => ∅
  | r :: rest =>
    if r.trip_id = t ∧ r.loaded = true then insert r.pkg_no (loadedSet rest t)
    else loadedSet rest t

/-- Modelled from the spec: firing of the trigger `trg_loaded_aiu`
after a write on `shipment_loaded` for trip `t`: it restores
`pkgs_loaded` of that trip to the number of distinct loaded package
numbers. -/
def triggerRow (t : Nat) (c : Int) (h : HeaderRow) : HeaderRow :=
  if h.id == t then { h with pkgs_loaded := c } else h

def applyTrigger (t : Nat) (db : DB) : DB :=
  { db with headers :=
      db.headers.map (triggerRow t ((loadedSet db.loadedRows t).card : Int)) }

/-- Key predicate of `shipment_loaded` lookups:
`trip_id = ? AND pkg_no = ?`. -/
def loadedKey (t : Nat) (p : Int) (r : LoadedRow) : Bool :=
  r.trip_id == t && r.pkg_no == p

/-- The `SET loaded = 1, loaded_by = ?, loaded_time = GETDATE()` part
of `mark_loaded`'s `UPDATE`. -/
def loadRow (user : String) (now : DateTime) (x : LoadedRow) : LoadedRow :=
  { x with loaded := true, loaded_by := some user, loaded_time := some now }

/-- Step 4 of `mark_loaded` (app/shipment.py, lines 337-360): read the
trigger-maintained counters (`fetchone()` raises when the trip id does
not exist, modelled as `none`); when `pkgs_loaded == pkgs_total`, call
`set_trip_closed(trip_id, True)` and append the `USER_ACTIVITY` row
whose action depends on the chained Python comparison
`pkgs_loaded == pkg_no == pkgs_total`.  Returns the Python return
value 1. -/
def markFinish (trip_id : Nat) (pkg_no : Int) (user : String)
    (now : DateTime) (db : DB) : Option (Nat × DB) :=
  match getHeader db trip_id with
  | none => none
  | some h =>
    if h.pkgs_loaded == h.pkgs_total then
      match set_trip_closed trip_id true user now db with
      | none => none
      | some db2 =>
        let action : String :=
          if h.pkgs_loaded == pkg_no && pkg_no == h.pkgs_total then "TRIP_AUTO_CLOSED"
          else "TRIP_COMPLETED_LATE"
        some (1, { db2 with audit := db2.audit ++
          (db2.headers.filter (fun g => g.id == trip_id)).map (fun g =>
            { username := user, action := action,
              details := toString h.pkgs_loaded ++ "/" ++ toString h.pkgs_total,
              order_no := g.order_no }) })
    else
      some (1, db)

/-- `mark_loaded` (app/shipment.py, lines 287-360).  Reads the
`(trip_id, pkg_no)` ledger row; when it is already loaded it returns 0
with no write.  Otherwise it sets `loaded = 1` on the existing row or
inserts a fresh one (firing the spec-modelled trigger), then performs
the auto-close check of `markFinish`.  The optional `item_code`
branch is dead in this repository (the only caller passes no
`item_code`, and its SQL names a column `order_no` that the
`shipment_lines` DDL does not declare), so it is not modelled. -/
def mark_loaded (trip_id : Nat) (pkg_no : Int) (user : String)
    (now : DateTime) (db : DB) : Option (Nat × DB) :=
  match db.loadedRows.find? (loadedKey trip_id pkg_no) with
  | some r =>
    if r.loaded then some (0, db)
    else
      let db1 : DB :=
        { db with loadedRows := db.loadedRows.map (fun x =>
            if loadedKey trip_id pkg_no x then loadRow user now x else x) }
      markFinish trip_id pkg_no user now (applyTrigger trip_id db1)
  | none =>
    let db1 : DB :=
      { db with loadedRows := db.loadedRows ++
          [{ trip_id := trip_id, pkg_no := pkg_no, loaded := true,
             loaded_by := some user, loaded_time := some now }] }
    markFinish trip_id pkg_no user now (applyTrigger trip_id db1)

/-- Candidate filter of `trip_by_barkod` (app/shipment.py, lines
266-278): `invoice_root = ? AND closed = 0 AND pkgs_loaded <
pkgs_total`, plus `CAST(created_at AS DATE) = ?` when a day filter is
supplied.  A NULL `invoice_root` never matches the equality. -/
def tripCandidate (inv_root : String) (day : Option String) (h : HeaderRow) : Bool :=
  h.invoice_root == some inv_root && !h.closed &&
    decide (h.pkgs_loaded < h.pkgs_total) &&
    (match day with
     | none => true
     | some d => h.created_at.day == d)

/-- `SELECT TOP (1) ... ORDER BY id`: the row with the least id among
the candidates. -/
def pickMinId : List HeaderRow → Option HeaderRow
  | [] => none
  | h :: t =>
    match pickMinId t with
    | none => some h
    | some m => if m.id < h.id then some m else some h

/-- `trip_by_barkod` (app/shipment.py, lines 249-280): lowest-id open
header matching the invoice root (and the optional day filter),
returned as `(trip_id, pkgs_total)`; `None` when no match. -/
def trip_by_barkod (inv_root : String) (day : Option String) (db : DB) :
    Option (Nat × Int) :=
  (pickMinId (db.headers.filter (tripCandidate inv_root day))).map
    (fun h => (h.id, h.pkgs_total))

/-- Key predicate of the open-backorder lookup in `insert_backorder`:
`fulfilled = 0 AND order_no = ? AND item_code = ?`. -/
def openBackorderKey (order_no item_code : String) (b : BackorderRow) : Bool :=
  !b.fulfilled && b.order_no == order_no && b.item_code == item_code

/-- The open (fulfilled = 0) backorder rows of one
`(order_no, item_code)` key. -/
def openRowsFor (db : DB) (order_no item_code : String) : List BackorderRow :=
  db.backorders.filter (openBackorderKey order_no item_code)

/-- `insert_backorder` (app/backorder.py, lines 67-86): when an open
row for `(order_no, item_code)` exists, adds `qty_missing` to it
(`UPDATE ... WHERE id = ?`); otherwise inserts a new row with the DDL
defaults `fulfilled = 0`, `created_at = GETDATE()`. -/
def insert_backorder (order_no : String) (line_id warehouse_id : Int)
    (item_code : String) (qty_missing : Rat) (eta_date : Option String)
    (now : DateTime) (db : DB) : DB :=
  match db.backorders.find? (openBackorderKey order_no item_code) with
  | some row =>
    { db with backorders := db.backorders.map (fun b =>
        if b.id == row.id then { b with qty_missing := b.qty_missing + qty_missing }
        else b) }
  | none =>
    { db with
      backorders := db.backorders ++
        [{ id := db.nextBackorderId, order_no := order_no, line_id := line_id,
           warehouse_id := warehouse_id, item_code := item_code,
           qty_missing := qty_missing, eta_date := eta_date, fulfilled := false,
           created_at := now, fulfilled_at := none }],
      nextBackorderId := db.nextBackorderId + 1 }

/-- `mark_fulfilled` (app/backorder.py, lines 138-142):
`UPDATE backorders SET fulfilled = 1, fulfilled_at = GETDATE()
WHERE id = ?`. -/
def mark_fulfilled (back_id : Nat) (now : DateTime) (db : DB) : DB :=
  { db with backorders := db.backorders.map (fun b =>
      if b.id == back_id then { b with fulfilled := true, fulfilled_at := some now }
      else b) }

/-- Key predicate of the `MERGE` in `add_shipment`:
`invoice_no = ? AND item_code = ?`. -/
def lineKey (invoice_no item_code : String) (l : ShipmentLineRow) : Bool :=
  l.invoice_no == invoice_no && l.item_code == item_code

/-- Lookup of a shipment line by its `(invoice_no, item_code)` key. -/
def findLine (db : DB) (invoice_no item_code : String) : Option ShipmentLineRow :=
  db.shipmentLines.find? (lineKey invoice_no item_code)

/-- `add_shipment` (app/backorder.py, lines 88-125): a `MERGE` keyed on
`(invoice_no, item_code)` (the order number is stored as the invoice
number).  When matched it adds `qty_delta` to `qty_shipped` and
refreshes `last_update`; when not matched it inserts with
`qty_shipped = qty_delta` and the passed `invoiced_qty`, `loaded`
taking its DDL default 0.  The `trip_date` argument is kept only for
backward compatibility and is unused. -/
def add_shipment (order_no trip_date item_code : String) (warehouse_id : Int)
    (invoiced_qty qty_delta : Rat) (now : DateTime) (db : DB) : DB :=
  if db.shipmentLines.any (lineKey order_no item_code) then
    { db with shipmentLines := db.shipmentLines.map (fun l =>
        if lineKey order_no item_code l then
          { l with qty_shipped := l.qty_shipped + qty_delta, last_update := now }
        else l) }
  else
    { db with shipmentLines := db.shipmentLines ++
        [{ invoice_no := order_no, item_code := item_code,
           warehouse_id := warehouse_id, invoiced_qty := invoiced_qty,
           qty_shipped := qty_delta, loaded := false, last_update := now }] }

/-- `list_pending` (app/backorder.py, lines 131-136):
`SELECT * FROM backorders WHERE fulfilled = 0`. -/
def list_pending (db : DB) : List BackorderRow :=
  db.backorders.filter (fun b => !b.fulfilled)

/-- `list_fulfilled` (app/backorder.py, lines 148-159):
`SELECT * FROM backorders WHERE fulfilled = 1`, optionally filtered by
`CAST(fulfilled_at AS DATE) = ?` (a NULL timestamp never matches). -/
def list_fulfilled (on_date : Option String) (db : DB) : List BackorderRow :=
  db.backorders.filter (fun b => b.fulfilled &&
    (match on_date with
     | none => true
     | some d =>
       match b.fulfilled_at with
       | some ts => ts.day == d
       | none => false))

/-- Outcome signals of `LoaderPage.on_scan`
(app/ui/pages/loader_page.py, lines 215-255). -/
inductive ScanResult where
  | parse_error
  | not_found
  | capacity_exceeded
  | duplicate
  | loaded_ok
deriving DecidableEq

/-- `LoaderPage.on_scan` after barcode parsing
(app/ui/pages/loader_page.py, lines 229-255): resolve the invoice root
to the active trip (`trip_by_barkod`, no day filter), reject a package
number outside `1 <= pkg_no <= pkgs_total` with a capacity error and
no store write, then run `mark_loaded`, reporting 0 as a duplicate. -/
def scan_resolved (inv_root : String) (pkg_no : Int) (user : String)
    (now : DateTime) (db : DB) : Option (ScanResult × DB) :=
  match trip_by_barkod inv_root none db with
  | none => some (ScanResult.not_found, db)
  | some (trip_id, pkg_tot) =>
    if 1 ≤ pkg_no ∧ pkg_no ≤ pkg_tot then
      match mark_loaded trip_id pkg_no user now db with
      | none => none
      | some (0, db1) => some (ScanResult.duplicate, db1)
      | some (_, db1) => some (ScanResult.loaded_ok, db1)
    else
      some (ScanResult.capacity_exceeded, db)

/-- `LoaderPage.on_scan` (app/ui/pages/loader_page.py, lines 215-255):
strip the raw barcode, split it at the last occurrence of the package
marker (`raw.rsplit` with one split), parse the numeric suffix, then
continue as `scan_resolved`. -/
def on_scan (raw : String) (user : String) (now : DateTime) (db : DB) :
    Option (ScanResult × DB) :=
  let s := raw.trim
  let parts := s.splitOn ("-K")
  if s == "" || parts.length == 1 then some (ScanResult.parse_error, db)
  else
    let inv_root := String.intercalate ("-K") parts.dropLast
    let pkg_txt := parts.getLastD ""
    match pkg_txt.toInt? with
    | none => some (ScanResult.parse_error, db)
    | some pkg_no => scan_resolved inv_root pkg_no user now db

/-- Folding `mark_loaded` over a list of scanned package numbers with a
single operator and clock, propagating the fatal missing-trip case. -/
def scanAll (trip_id : Nat) (user : String) (now : DateTime)
    (pkgs : List Int) (db : DB) : Option DB :=
  pkgs.foldlM (fun s p => (mark_loaded trip_id p user now s).map Prod.snd) db

/-- Repeated `add_shipment` calls for one `(order_no, item_code)` key:
each list entry carries `(warehouse_id, invoiced_qty, qty_delta, now)`. -/
def add_shipment_many (order_no item_code : String)
    (calls : List (Int × Rat × Rat × DateTime)) (db : DB) : DB :=
  calls.foldl
    (fun s c => add_shipment order_no "" item_code c.1 c.2.1 c.2.2.1 c.2.2.2 s) db

/-- One core operation of the store, as fired by the application: the
three trip operations of app/shipment.py and the three ledger writers
of app/backorder.py (the list projections are pure reads and produce
no new state).  Fallible operations step only when they succeed. -/
inductive Step : DB → DB → Prop where
  | upsert (order_no trip_date : String) (pkgs_total : Int)
      (cc cn rg a1 : String) (ir : Option String) (now : DateTime) (db : DB) :
      Step db (upsert_header order_no trip_date pkgs_total cc cn rg a1 ir now db)
  | markLoaded (t : Nat) (p : Int) (u : String) (now : DateTime)
      (db db' : DB) (c : Nat) (h : mark_loaded t p u now db = some (c, db')) :
      Step db db'
  | setClosed (t : Nat) (c : Bool) (u : String) (now : DateTime)
      (db db' : DB) (h : set_trip_closed t c u now db = some db') :
      Step db db'
  | insertBackorder (o : String) (li wh : Int) (i : String) (q : Rat)
      (e : Option String) (now : DateTime) (db : DB) :
      Step db (insert_backorder o li wh i q e now db)
  | markFulfilled (bid : Nat) (now : DateTime) (db : DB) :
      Step db (mark_fulfilled bid now db)
  | addShipment (o td i : String) (wh : Int) (iq qd : Rat) (now : DateTime)
      (db : DB) :
      Step db (add_shipment o td i wh iq qd now db)

/-- States reachable from the freshly created store by core
operations. -/
def Reachable (db : DB) : Prop :=
  Relation.ReflTransGen Step initDB db

/-- The `UNIQUE(trip_id, pkg_no)` constraint of `shipment_loaded`. -/
def UniqKeys (rows : List LoadedRow) : Prop :=
  rows.Pairwise (fun a b => ¬(a.trip_id = b.trip_id ∧ a.pkg_no = b.pkg_no))

/-- A fulfilled backorder row with the given id exists. -/
def FulfilledAt (db : DB) (i : Nat) : Prop :=
  ∃ b ∈ db.backorders, b.id = i ∧ b.fulfilled = true

/-- The invariant driving the `pkgs_loaded` bookkeeping: unique ledger
keys, header ids below the identity counter, ledger rows pointing at
existing headers, and every header counting its distinct loaded
packages. -/
def InvAll (db : DB) : Prop :=
  UniqKeys db.loadedRows ∧
  (∀ h ∈ db.headers, h.id < db.nextHeaderId) ∧
  (∀ r ∈ db.loadedRows, ∃ h ∈ db.headers, h.id = r.trip_id) ∧
  (∀ h ∈ db.headers, h.pkgs_loaded = ((loadedSet db.loadedRows h.id).card : Int))

/-- The distinct-loaded-package count of trip `t` after a fresh scan of
package `p`, as an `Int` (the value the spec-modelled trigger writes
into `pkgs_loaded`). -/
def newCount (db : DB) (t : Nat) (p : Int) : Int :=
  ((insert p (loadedSet db.loadedRows t)).card : Int)

/-- The `WHERE` clause of `trip_by_barkod`, as a proposition:
`invoice_root = ? AND closed = 0 AND pkgs_loaded < pkgs_total`, plus
the optional `CAST(created_at AS DATE) = ?` day filter. -/
def IsCandidate (inv_root : String) (day : Option String) (h : HeaderRow) : Prop :=
  h.invoice_root = some inv_root ∧ h.closed = false ∧
    h.pkgs_loaded < h.pkgs_total ∧ ∀ d, day = some d → h.created_at.day = d

/-- Example clock values used to instantiate the theorems. -/
def egNow : DateTime := ⟨"2025-01-02", 0⟩

def egNow1 : DateTime := ⟨"2025-01-02", 1⟩

def egNow2 : DateTime := ⟨"2025-01-02", 2⟩

/-- A store holding one freshly upserted two-package trip. -/
def egTripDB : DB :=
  upsert_header "SO1" "2025-01-02" 2 "" "" "" "" (some "CAN100") egNow initDB

/-- The header row of `egTripDB`. -/
def egHeader : HeaderRow :=
  { id := 1, trip_date := "2025-01-02", order_no := "SO1", customer_code := "",
    customer_name := "", region := "", address1 := "", pkgs_total := 2,
    pkgs_loaded := 0, closed := false, en_route := false, loaded_at := none,
    invoice_root := some "CAN100", qr_token := none, printed := false,
    created_at := egNow }

/-- `egTripDB` after one package scan. -/
def egLoadedDB : DB :=
  ((mark_loaded 1 1 "op" egNow1 egTripDB).map Prod.snd).getD egTripDB

/-- A store holding one freshly upserted three-package trip. -/
def egTripDB3 : DB :=
  upsert_header "SO2" "2025-01-02" 3 "" "" "" "" (some "CAN200") egNow initDB

/-- The header row of `egTripDB3`. -/
def egHeader3 : HeaderRow :=
  { id := 1, trip_date := "2025-01-02", order_no := "SO2", customer_code := "",
    customer_name := "", region := "", address1 := "", pkgs_total := 3,
    pkgs_loaded := 0, closed := false, en_route := false, loaded_at := none,
    invoice_root := some "CAN200", qr_token := none, printed := false,
    created_at := egNow }

/-- Two open trips sharing the invoice root CAN100 (ids 1 and 2). -/
def egTwoTripDB : DB :=
  upsert_header "SO4" "2025-01-03" 2 "" "" "" "" (some "CAN100") egNow1
    (upsert_header "SO3" "2025-01-02" 2 "" "" "" "" (some "CAN100") egNow initDB)

/-- One open backorder row (id 1, qty 2) for (SO1, A). -/
def egBackOnce : DB := insert_backorder "SO1" 7 1 "A" 2 none egNow initDB

/-- `egBackOnce` after fulfilling row 1. -/
def egBackFulfilled : DB := mark_fulfilled 1 egNow1 egBackOnce

/-- `egBackFulfilled` after a new shortfall for the same key (opens a
fresh row, id 2). -/
def egBackAfter : DB := insert_backorder "SO1" 7 1 "A" 3 none egNow2 egBackFulfilled

/-- One shipment line (SO1, A) with `invoiced_qty = 10`,
`qty_shipped = 2`. -/
def egShipOnce : DB := add_shipment "SO1" "" "A" 1 10 2 egNow initDB

/-- The line row of `egShipOnce`. -/
def egLine : ShipmentLineRow :=
  { invoice_no := "SO1", item_code := "A", warehouse_id := 1, invoiced_qty := 10,
    qty_shipped := 2, loaded := false, last_update := egNow }

/-- `egTripDB` after a manual close: the trip is `closed` and
`en_route` with `loaded_at` set. -/
def egClosedTripDB : DB :=
  (set_trip_closed 1 true "op" egNow1 egTripDB).getD egTripDB

/-- The header row of `egClosedTripDB`. -/
def egClosedHeader : HeaderRow :=
  { egHeader with closed := true, en_route := true, loaded_at := some egNow1 }

theorem find?_map_comm {α : Type} (f : α → α) (p : α → Bool)
    (hp : ∀ a, p (f a) = p a) :
    ∀ l : List α, (l.map f).find? p = (l.find? p).map f
  | [] => rfl
  | a :: l => by
    simp only [List.map_cons, List.find?_cons]
    rw [hp a]
    cases h : p a
    · exact find?_map_comm f p hp l
    · rfl

theorem map_ite_id {α : Type} (p : α → Bool) (f : α → α) :
    ∀ l : List α, (∀ a ∈ l, p a = false) →
      (l.map fun a => if p a then f a else a) = l
  | [], _ => rfl
  | a :: l, h => by
    have ha : (if p a then f a else a) = a := by
      rw [h a (List.mem_cons_self a l)]
      exact if_neg (by simp)
    simp only [List.map_cons, ha]
    rw [map_ite_id p f l (fun x hx => h x (List.mem_cons_of_mem a hx))]

theorem mem_loadedSet {rows : List LoadedRow} {t : Nat} {x : Int} :
    x ∈ loadedSet rows t ↔ ∃ r ∈ rows, r.trip_id = t ∧ r.loaded = true ∧ r.pkg_no = x := by
  induction rows with
  | nil => simp [loadedSet]
  | cons r rest ih =>
    simp only [loadedSet]
    by_cases h : r.trip_id = t ∧ r.loaded = true
    · simp only [if_pos h, Finset.mem_insert, ih, List.mem_cons]
      constructor
      · rintro (rfl | ⟨r', hr', hp⟩)
        · exact ⟨r, Or.inl rfl, h.1, h.2, rfl⟩
        · exact ⟨r', Or.inr hr', hp⟩
      · rintro ⟨r', (rfl | hr'), h1, h2, rfl⟩
        · exact Or.inl rfl
        · exact Or.inr ⟨r', hr', h1, h2, rfl⟩
    · simp only [if_neg h, ih, List.mem_cons]
      constructor
      · rintro ⟨r', hr', hp⟩
        exact ⟨r', Or.inr hr', hp⟩
      · rintro ⟨r', (rfl | hr'), h1, h2, rfl⟩
        · exact absurd ⟨h1, h2⟩ h
        · exact ⟨r', hr', h1, h2, rfl⟩

theorem loadedKey_iff {t : Nat} {p : Int} {r : LoadedRow} :
    loadedKey t p r = true ↔ r.trip_id = t ∧ r.pkg_no = p := by
  simp [loadedKey]

theorem headerKey_iff {d o : String} {h : HeaderRow} :
    headerKey d o h = true ↔ h.trip_date = d ∧ h.order_no = o := by
  simp [headerKey]

theorem uniqKeys_key_eq {rows : List LoadedRow} {t : Nat} {p : Int} {r r' : LoadedRow}
    (hU : UniqKeys rows) (hr : r ∈ rows) (hr' : r' ∈ rows)
    (h1 : loadedKey t p r = true) (h2 : loadedKey t p r' = true) : r = r' := by
  induction rows with
  | nil => cases hr
  | cons a l ih =>
    have ha := (List.pairwise_cons.mp hU).1
    have hl := (List.pairwise_cons.mp hU).2
    rcases List.mem_cons.mp hr with h3 | h3
    · rcases List.mem_cons.mp hr' with h4 | h4
      · rw [h3, h4]
      · subst h3
        exact absurd ⟨(loadedKey_iff.mp h1).1.trans (loadedKey_iff.mp h2).1.symm,
          (loadedKey_iff.mp h1).2.trans (loadedKey_iff.mp h2).2.symm⟩ (ha r' h4)
    · rcases List.mem_cons.mp hr' with h4 | h4
      · subst h4
        exact absurd ⟨(loadedKey_iff.mp h2).1.trans (loadedKey_iff.mp h1).1.symm,
          (loadedKey_iff.mp h2).2.trans (loadedKey_iff.mp h1).2.symm⟩ (ha r h3)
      · exact ih hl h3 h4

theorem not_mem_loadedSet_of_find?_none {rows : List LoadedRow} {t : Nat} {p : Int}
    (h : rows.find? (loadedKey t p) = none) : p ∉ loadedSet rows t := by
  intro hmem
  rcases mem_loadedSet.mp hmem with ⟨r, hr, h1, _h2, h3⟩
  exact absurd (loadedKey_iff.mpr ⟨h1, h3⟩) (by simpa using List.find?_eq_none.mp h r hr)

theorem not_mem_loadedSet_of_find?_unloaded {rows : List LoadedRow} {t : Nat} {p : Int}
    {r₀ : LoadedRow} (hU : UniqKeys rows)
    (hfind : rows.find? (loadedKey t p) = some r₀) (hr₀ : r₀.loaded = false) :
    p ∉ loadedSet rows t := by
  intro hmem
  rcases mem_loadedSet.mp hmem with ⟨r, hr, h1, h2, h3⟩
  have : r = r₀ := uniqKeys_key_eq hU hr (List.mem_of_find?_eq_some hfind)
    (loadedKey_iff.mpr ⟨h1, h3⟩) (List.find?_some hfind)
  rw [this, hr₀] at h2
  cases h2

theorem mem_loadedSet_of_find?_loaded {rows : List LoadedRow} {t : Nat} {p : Int}
    {r₀ : LoadedRow} (hfind : rows.find? (loadedKey t p) = some r₀)
    (hr₀ : r₀.loaded = true) : p ∈ loadedSet rows t := by
  rcases loadedKey_iff.mp (List.find?_some hfind) with ⟨h1, h2⟩
  exact mem_loadedSet.mpr ⟨r₀, List.mem_of_find?_eq_some hfind, h1, hr₀, h2⟩

theorem loadedSet_cons (r : LoadedRow) (rest : List LoadedRow) (t : Nat) :
    loadedSet (r :: rest) t =
      if r.trip_id = t ∧ r.loaded = true then insert r.pkg_no (loadedSet rest t)
      else loadedSet rest t := rfl

theorem loadedSet_append_row (r : LoadedRow) (t : Nat)
    (ht : r.trip_id = t) (hl : r.loaded = true) :
    ∀ rows : List LoadedRow, ∀ t' : Nat,
      loadedSet (rows ++ [r]) t' =
        if t' = t then insert r.pkg_no (loadedSet rows t') else loadedSet rows t'
  | [], t' => by
    rw [List.nil_append, loadedSet_cons]
    by_cases h : t' = t
    · rw [if_pos ⟨ht.trans h.symm, hl⟩, if_pos h]
    · rw [if_neg (fun hh => h (hh.1.symm.trans ht)), if_neg h]
  | a :: rest, t' => by
    rw [List.cons_append, loadedSet_cons, loadedSet_cons,
      loadedSet_append_row r t ht hl rest t']
    by_cases hc : a.trip_id = t' ∧ a.loaded = true
    · rw [if_pos hc, if_pos hc]
      by_cases h : t' = t
      · rw [if_pos h, if_pos h, Finset.Insert.comm]
      · rw [if_neg h, if_neg h]
    · rw [if_neg hc, if_neg hc]

theorem loadedSet_map_update (t : Nat) (p : Int) (u : String) (now : DateTime) :
    ∀ rows : List LoadedRow, ∀ r₀ : LoadedRow, UniqKeys rows →
      rows.find? (loadedKey t p) = some r₀ → r₀.loaded = false → ∀ t' : Nat,
      loadedSet (rows.map fun x => if loadedKey t p x then loadRow u now x else x) t' =
        if t' = t then insert p (loadedSet rows t') else loadedSet rows t'
  | [], r₀, _, hfind, _, t' => by cases hfind
  | r :: rest, r₀, hU, hfind, hr₀, t' => by
    have hU' := List.pairwise_cons.mp hU
    by_cases hk : loadedKey t p r = true
    · have hr : r = r₀ := by
        rw [List.find?_cons, hk] at hfind
        exact Option.some_injective _ hfind
      have htail : ∀ x ∈ rest, loadedKey t p x = false := by
        intro x hx
        by_contra hc
        rcases loadedKey_iff.mp (by simpa using hc) with ⟨h1, h2⟩
        rcases loadedKey_iff.mp hk with ⟨h3, h4⟩
        exact hU'.1 x hx ⟨h3.trans h1.symm, h4.trans h2.symm⟩
      rcases loadedKey_iff.mp hk with ⟨h3, h4⟩
      rw [List.map_cons, if_pos hk, map_ite_id _ _ rest htail, loadedSet_cons,
        loadedSet_cons]
      have hrl : ¬(r.trip_id = t' ∧ r.loaded = true) := by
        rintro ⟨_, hl⟩
        rw [hr, hr₀] at hl
        cases hl
      rw [if_neg hrl]
      have hlr1 : (loadRow u now r).trip_id = r.trip_id := rfl
      have hlr2 : (loadRow u now r).loaded = true := rfl
      have hlr3 : (loadRow u now r).pkg_no = r.pkg_no := rfl
      by_cases h : t' = t
      · rw [if_pos (by rw [hlr1, h3, h]; exact ⟨rfl, hlr2⟩), if_pos h, hlr3, h4]
      · rw [if_neg (fun hh => h ((hlr1 ▸ hh.1 : r.trip_id = t').symm.trans h3)),
          if_neg h]
    · have hfind' : rest.find? (loadedKey t p) = some r₀ := by
        rw [List.find?_cons] at hfind
        cases hkk : loadedKey t p r
        · rw [hkk] at hfind
          exact hfind
        · exact absurd hkk (by simpa using hk)
      have ih := loadedSet_map_update t p u now rest r₀ hU'.2 hfind' hr₀ t'
      rw [List.map_cons, if_neg (by simpa using hk), loadedSet_cons, loadedSet_cons,
        ih]
      by_cases hc : r.trip_id = t' ∧ r.loaded = true
      · rw [if_pos hc, if_pos hc]
        by_cases h : t' = t
        · rw [if_pos h, if_pos h, Finset.Insert.comm]
        · rw [if_neg h, if_neg h]
      · rw [if_neg hc, if_neg hc]

theorem uniqKeys_append_fresh {rows : List LoadedRow} {t : Nat} {p : Int}
    (u : String) (now : DateTime) (hU : UniqKeys rows)
    (hnone : rows.find? (loadedKey t p) = none) :
    UniqKeys (rows ++ [(⟨t, p, true, some u, some now⟩ : LoadedRow)]) := by
  rw [UniqKeys, List.pairwise_append]
  refine ⟨hU, List.pairwise_singleton _ _, ?_⟩
  intro a ha b hb
  rw [List.mem_singleton] at hb
  subst hb
  rintro ⟨h1, h2⟩
  exact absurd (loadedKey_iff.mpr ⟨h1, h2⟩)
    (by simpa using List.find?_eq_none.mp hnone a ha)

theorem uniqKeys_map_update {rows : List LoadedRow} {t : Nat} {p : Int}
    (u : String) (now : DateTime) (hU : UniqKeys rows) :
    UniqKeys (rows.map fun x => if loadedKey t p x then loadRow u now x else x) := by
  rw [UniqKeys, List.pairwise_map]
  refine hU.imp_of_mem ?_
  intro a b _ _ hab
  have ka : (if loadedKey t p a then loadRow u now a else a).trip_id = a.trip_id := by
    by_cases hk : loadedKey t p a <;> simp [hk, loadRow]
  have ka2 : (if loadedKey t p a then loadRow u now a else a).pkg_no = a.pkg_no := by
    by_cases hk : loadedKey t p a <;> simp [hk, loadRow]
  have kb : (if loadedKey t p b then loadRow u now b else b).trip_id = b.trip_id := by
    by_cases hk : loadedKey t p b <;> simp [hk, loadRow]
  have kb2 : (if loadedKey t p b then loadRow u now b else b).pkg_no = b.pkg_no := by
    by_cases hk : loadedKey t p b <;> simp [hk, loadRow]
  rw [ka, ka2, kb, kb2]
  exact hab

theorem setClosedRow_id (t : Nat) (c : Bool) (now : DateTime) (h : HeaderRow) :
    (setClosedRow t c now h).id = h.id := by
  rw [setClosedRow]
  split <;> rfl

theorem triggerRow_id (t : Nat) (c : Int) (h : HeaderRow) :
    (triggerRow t c h).id = h.id := by
  rw [triggerRow]
  split <;> rfl

theorem find_id_map (g : HeaderRow → HeaderRow) (hid : ∀ h, (g h).id = h.id)
    (l : List HeaderRow) (t : Nat) :
    (l.map g).find? (fun h => h.id == t) = (l.find? (fun h => h.id == t)).map g :=
  find?_map_comm g _ (fun a => by rw [hid]) l

theorem getHeader_headers_map (db : DB) (g : HeaderRow → HeaderRow)
    (hid : ∀ h, (g h).id = h.id) (t : Nat) :
    getHeader { db with headers := db.headers.map g } t = (getHeader db t).map g := by
  simp only [getHeader]
  exact find_id_map g hid db.headers t

theorem set_trip_closed_of_found {t : Nat} {c : Bool} {u : String} {now : DateTime}
    {db : DB} {H : HeaderRow} (hH : getHeader db t = some H) :
    ∃ db', set_trip_closed t c u now db = some db' ∧
      db'.headers = db.headers.map (setClosedRow t c now) ∧
      db'.loadedRows = db.loadedRows ∧
      db'.shipmentLines = db.shipmentLines ∧
      db'.backorders = db.backorders ∧
      db'.nextHeaderId = db.nextHeaderId ∧
      db'.nextBackorderId = db.nextBackorderId := by
  have hg : getHeader { db with headers := db.headers.map (setClosedRow t c now) } t
      = some (setClosedRow t c now H) := by
    rw [getHeader_headers_map db _ (setClosedRow_id t c now) t, hH]
    rfl
  simp only [set_trip_closed, hg]
  cases c
  · exact ⟨_, rfl, rfl, rfl, rfl, rfl, rfl, rfl⟩
  · exact ⟨_, rfl, rfl, rfl, rfl, rfl, rfl, rfl⟩

theorem markFinish_of_found {t : Nat} {p : Int} {u : String} {now : DateTime}
    {db : DB} {H : HeaderRow} (hH : getHeader db t = some H) :
    ∃ db', markFinish t p u now db = some (1, db') ∧
      db'.loadedRows = db.loadedRows ∧
      db'.shipmentLines = db.shipmentLines ∧
      db'.backorders = db.backorders ∧
      db'.nextHeaderId = db.nextHeaderId ∧
      db'.nextBackorderId = db.nextBackorderId ∧
      (if H.pkgs_loaded = H.pkgs_total then
        db'.headers = db.headers.map (setClosedRow t true now)
      else db'.headers = db.headers) := by
  simp only [markFinish, hH]
  cases hb : H.pkgs_loaded == H.pkgs_total
  · exact ⟨db, by simp, rfl, rfl, rfl, rfl, rfl, by rw [if_neg (by simpa using hb)]⟩
  · rcases @set_trip_closed_of_found t true u now db H hH with
      ⟨db2, hdb2, hh, hl, hs, hbo, hn1, hn2⟩
    simp only [if_true, hdb2]
    exact ⟨_, rfl, hl, hs, hbo, hn1, hn2,
      by rw [if_pos (by simpa using hb)]; exact hh⟩

theorem mark_loaded_eq_insert {db : DB} {t : Nat} {p : Int} {u : String}
    {now : DateTime} (hf : db.loadedRows.find? (loadedKey t p) = none) :
    mark_loaded t p u now db = markFinish t p u now (applyTrigger t
      { db with loadedRows :=
          db.loadedRows ++ [(⟨t, p, true, some u, some now⟩ : LoadedRow)] }) := by
  simp only [mark_loaded, hf]

theorem mark_loaded_eq_update {db : DB} {t : Nat} {p : Int} {u : String}
    {now : DateTime} {r : LoadedRow}
    (hf : db.loadedRows.find? (loadedKey t p) = some r) (hrl : r.loaded = false) :
    mark_loaded t p u now db = markFinish t p u now (applyTrigger t
      { db with loadedRows :=
          db.loadedRows.map fun x => if loadedKey t p x then loadRow u now x else x }) := by
  simp only [mark_loaded, hf, hrl, Bool.false_eq_true, if_false]

theorem mark_loaded_eq_dup {db : DB} {t : Nat} {p : Int} {u : String}
    {now : DateTime} {r : LoadedRow}
    (hf : db.loadedRows.find? (loadedKey t p) = some r) (hrl : r.loaded = true) :
    mark_loaded t p u now db = some (0, db) := by
  simp only [mark_loaded, hf, hrl, if_true]

/-- Everything a successful fresh `mark_loaded` scan (package not yet
loaded, trip header present) does to the store. -/
theorem mark_loaded_fresh {db : DB} {t : Nat} {p : Int} (u : String) (now : DateTime)
    {H : HeaderRow} (hU : UniqKeys db.loadedRows) (hH : getHeader db t = some H)
    (hp : p ∉ loadedSet db.loadedRows t) :
    ∃ db', mark_loaded t p u now db = some (1, db') ∧
      UniqKeys db'.loadedRows ∧
      (∀ t', loadedSet db'.loadedRows t' =
        if t' = t then insert p (loadedSet db.loadedRows t)
        else loadedSet db.loadedRows t') ∧
      (∀ r' ∈ db'.loadedRows, (r'.trip_id = t ∧ r'.pkg_no = p) ∨ r' ∈ db.loadedRows) ∧
      db'.shipmentLines = db.shipmentLines ∧
      db'.backorders = db.backorders ∧
      db'.nextHeaderId = db.nextHeaderId ∧
      db'.nextBackorderId = db.nextBackorderId ∧
      db'.headers =
        (if newCount db t p = H.pkgs_total then
          (db.headers.map (triggerRow t (newCount db t p))).map (setClosedRow t true now)
        else db.headers.map (triggerRow t (newCount db t p))) ∧
      getHeader db' t = some
        (if newCount db t p = H.pkgs_total then
          { H with pkgs_loaded := newCount db t p, closed := true, en_route := true,
                   loaded_at := some now }
        else { H with pkgs_loaded := newCount db t p }) := by
  have hidH : (H.id == t) = true := by
    have h2 : db.headers.find? (fun h => h.id == t) = some H := by
      simpa [getHeader] using hH
    simpa using List.find?_some h2
  cases hf : db.loadedRows.find? (loadedKey t p) with
  | none =>
    set db1 : DB :=
      { db with loadedRows :=
          db.loadedRows ++ [(⟨t, p, true, some u, some now⟩ : LoadedRow)] } with hdb1
    have hls : ∀ t', loadedSet db1.loadedRows t' =
        if t' = t then insert p (loadedSet db.loadedRows t)
        else loadedSet db.loadedRows t' := by
      intro t'
      have := loadedSet_append_row (⟨t, p, true, some u, some now⟩ : LoadedRow) t
        rfl rfl db.loadedRows t'
      by_cases h : t' = t
      · rw [if_pos h] at this ⊢
        rw [hdb1]
        rw [this, h]
      · rw [if_neg h] at this ⊢
        rw [hdb1]
        exact this
    have hUq : UniqKeys db1.loadedRows := uniqKeys_append_fresh u now hU hf
    have hmm : ∀ r' ∈ db1.loadedRows,
        (r'.trip_id = t ∧ r'.pkg_no = p) ∨ r' ∈ db.loadedRows := by
      intro r' hr'
      rw [hdb1] at hr'
      rcases List.mem_append.mp hr' with h | h
      · exact Or.inr h
      · rw [List.mem_singleton] at h
        subst h
        exact Or.inl ⟨rfl, rfl⟩
    have hcard : ((loadedSet db1.loadedRows t).card : Int) = newCount db t p := by
      rw [hls t, if_pos rfl, newCount]
    have hgT : getHeader (applyTrigger t db1) t =
        some (triggerRow t ((loadedSet db1.loadedRows t).card : Int) H) := by
      rw [applyTrigger]
      rw [getHeader_headers_map db1 _ (triggerRow_id t _) t]
      have : getHeader db1 t = some H := hH
      rw [this]
      rfl
    have htrH : triggerRow t ((loadedSet db1.loadedRows t).card : Int) H =
        { H with pkgs_loaded := newCount db t p } := by
      rw [triggerRow, if_pos hidH, hcard]
    rw [htrH] at hgT
    rcases @markFinish_of_found t p u now _ _ hgT with
      ⟨db', hmf, hl, hs, hbo, hn1, hn2, hhd⟩
    have hml : mark_loaded t p u now db = some (1, db') := by
      rw [mark_loaded_eq_insert hf]
      exact hmf
    have hlrT : (applyTrigger t db1).loadedRows = db1.loadedRows := rfl
    have hcond : ({ H with pkgs_loaded := newCount db t p } : HeaderRow).pkgs_loaded =
        ({ H with pkgs_loaded := newCount db t p } : HeaderRow).pkgs_total ↔
        newCount db t p = H.pkgs_total := Iff.rfl
    refine ⟨db', hml, ?_, ?_, ?_, ?_, ?_, ?_, ?_, ?_, ?_⟩
    · rw [hl, hlrT]
      exact hUq
    · intro t'
      rw [hl, hlrT]
      exact hls t'
    · intro r' hr'
      exact hmm r' (by rw [← hlrT, ← hl]; exact hr')
    · exact hs
    · exact hbo
    · exact hn1
    · exact hn2
    · by_cases hcl : newCount db t p = H.pkgs_total
      · rw [if_pos hcl]
        rw [if_pos (hcond.mpr hcl)] at hhd
        rw [hhd]
        have : (applyTrigger t db1).headers =
            db.headers.map (triggerRow t (newCount db t p)) := by
          rw [applyTrigger, hcard]
        rw [this]
      · rw [if_neg hcl]
        rw [if_neg (fun hc => hcl (hcond.mp hc))] at hhd
        rw [hhd, applyTrigger, hcard]
    · by_cases hcl : newCount db t p = H.pkgs_total
      · rw [if_pos (hcond.mpr hcl)] at hhd
        rw [if_pos hcl, getHeader, hhd,
          find_id_map _ (setClosedRow_id t true now), ← getHeader, hgT,
          Option.map_some']
        rw [setClosedRow, if_pos hidH]
        rfl
      · rw [if_neg (fun hc => hcl (hcond.mp hc))] at hhd
        rw [if_neg hcl, getHeader, hhd, ← getHeader, hgT]
  | some r =>
    have hrl : r.loaded = false := by
      cases hl : r.loaded
      · rfl
      · exact absurd (mem_loadedSet_of_find?_loaded hf hl) hp
    set db1 : DB :=
      { db with loadedRows :=
          db.loadedRows.map fun x => if loadedKey t p x then loadRow u now x else x }
      with hdb1
    have hls : ∀ t', loadedSet db1.loadedRows t' =
        if t' = t then insert p (loadedSet db.loadedRows t)
        else loadedSet db.loadedRows t' := by
      intro t'
      have := loadedSet_map_update t p u now db.loadedRows r hU hf hrl t'
      by_cases h : t' = t
      · rw [if_pos h] at this ⊢
        rw [hdb1, this, h]
      · rw [if_neg h] at this ⊢
        rw [hdb1]
        exact this
    have hUq : UniqKeys db1.loadedRows := uniqKeys_map_update u now hU
    have hmm : ∀ r' ∈ db1.loadedRows,
        (r'.trip_id = t ∧ r'.pkg_no = p) ∨ r' ∈ db.loadedRows := by
      intro r' hr'
      rw [hdb1] at hr'
      rcases List.mem_map.mp hr' with ⟨x, hx, rfl⟩
      by_cases hk : loadedKey t p x = true
      · rcases loadedKey_iff.mp hk with ⟨h1, h2⟩
        rw [if_pos hk]
        exact Or.inl ⟨h1, h2⟩
      · rw [if_neg (by simpa using hk)]
        exact Or.inr hx
    have hcard : ((loadedSet db1.loadedRows t).card : Int) = newCount db t p := by
      rw [hls t, if_pos rfl, newCount]
    have hgT : getHeader (applyTrigger t db1) t =
        some (triggerRow t ((loadedSet db1.loadedRows t).card : Int) H) := by
      rw [applyTrigger]
      rw [getHeader_headers_map db1 _ (triggerRow_id t _) t]
      have : getHeader db1 t = some H := hH
      rw [this]
      rfl
    have htrH : triggerRow t ((loadedSet db1.loadedRows t).card : Int) H =
        { H with pkgs_loaded := newCount db t p } := by
      rw [triggerRow, if_pos hidH, hcard]
    rw [htrH] at hgT
    rcases @markFinish_of_found t p u now _ _ hgT with
      ⟨db', hmf, hl, hs, hbo, hn1, hn2, hhd⟩
    have hml : mark_loaded t p u now db = some (1, db') := by
      rw [mark_loaded_eq_update hf hrl]
      exact hmf
    have hlrT : (applyTrigger t db1).loadedRows = db1.loadedRows := rfl
    have hcond : ({ H with pkgs_loaded := newCount db t p } : HeaderRow).pkgs_loaded =
        ({ H with pkgs_loaded := newCount db t p } : HeaderRow).pkgs_total ↔
        newCount db t p = H.pkgs_total := Iff.rfl
    refine ⟨db', hml, ?_, ?_, ?_, ?_, ?_, ?_, ?_, ?_, ?_⟩
    · rw [hl, hlrT]
      exact hUq
    · intro t'
      rw [hl, hlrT]
      exact hls t'
    · intro r' hr'
      exact hmm r' (by rw [← hlrT, ← hl]; exact hr')
    · exact hs
    · exact hbo
    · exact hn1
    · exact hn2
    · by_cases hcl : newCount db t p = H.pkgs_total
      · rw [if_pos hcl]
        rw [if_pos (hcond.mpr hcl)] at hhd
        rw [hhd]
        have : (applyTrigger t db1).headers =
            db.headers.map (triggerRow t (newCount db t p)) := by
          rw [applyTrigger, hcard]
        rw [this]
      · rw [if_neg hcl]
        rw [if_neg (fun hc => hcl (hcond.mp hc))] at hhd
        rw [hhd, applyTrigger, hcard]
    · by_cases hcl : newCount db t p = H.pkgs_total
      · rw [if_pos (hcond.mpr hcl)] at hhd
        rw [if_pos hcl, getHeader, hhd,
          find_id_map _ (setClosedRow_id t true now), ← getHeader, hgT,
          Option.map_some']
        rw [setClosedRow, if_pos hidH]
        rfl
      · rw [if_neg (fun hc => hcl (hcond.mp hc))] at hhd
        rw [if_neg hcl, getHeader, hhd, ← getHeader, hgT]

theorem find?_loaded_of_mem {rows : List LoadedRow} {t : Nat} {p : Int}
    (hU : UniqKeys rows) (hmem : p ∈ loadedSet rows t) :
    ∃ r, rows.find? (loadedKey t p) = some r ∧ r.loaded = true := by
  rcases mem_loadedSet.mp hmem with ⟨r, hr, h1, h2, h3⟩
  have hkey : loadedKey t p r = true := loadedKey_iff.mpr ⟨h1, h3⟩
  cases hf : rows.find? (loadedKey t p) with
  | none => exact absurd hkey (by simpa using List.find?_eq_none.mp hf r hr)
  | some r' =>
    have : r' = r := uniqKeys_key_eq hU (List.mem_of_find?_eq_some hf) hr
      (List.find?_some hf) hkey
    exact ⟨r', rfl, by rw [this]; exact h2⟩

/-- C2: for a trip that exists and a package number not yet loaded,
two successive `mark_loaded` calls return 1 (Loaded) then 0
(Duplicate); the duplicate call returns the store unchanged, and the
trip's `pkgs_loaded` has grown by exactly one over the two calls. -/
theorem mark_loaded_twice {db : DB} {t : Nat} {p : Int} (u₁ u₂ : String)
    (n₁ n₂ : DateTime) {H : HeaderRow}
    (hU : UniqKeys db.loadedRows) (hH : getHeader db t = some H)
    (hp : p ∉ loadedSet db.loadedRows t)
    (hInv : H.pkgs_loaded = ((loadedSet db.loadedRows t).card : Int)) :
    ∃ db' H', mark_loaded t p u₁ n₁ db = some (1, db') ∧
      mark_loaded t p u₂ n₂ db' = some (0, db') ∧
      getHeader db' t = some H' ∧
      H'.pkgs_loaded = H.pkgs_loaded + 1 := by
  rcases mark_loaded_fresh u₁ n₁ hU hH hp with
    ⟨db', hml, hUq, hls, _, _, _, _, _, _, hgH⟩
  have hpmem : p ∈ loadedSet db'.loadedRows t := by
    rw [hls t, if_pos rfl]
    exact Finset.mem_insert_self p _
  rcases find?_loaded_of_mem hUq hpmem with ⟨r, hfr, hlr⟩
  refine ⟨db', _, hml, mark_loaded_eq_dup hfr hlr, hgH, ?_⟩
  have hval : ((if newCount db t p = H.pkgs_total then
        { H with pkgs_loaded := newCount db t p, closed := true, en_route := true,
                 loaded_at := some n₁ }
      else { H with pkgs_loaded := newCount db t p } : HeaderRow)).pkgs_loaded
      = newCount db t p := by
    by_cases hcl : newCount db t p = H.pkgs_total
    · rw [if_pos hcl]
    · rw [if_neg hcl]
  rw [hval, newCount, Finset.card_insert_of_not_mem hp, hInv]
  push_cast
  ring

theorem scanAll_nil (t : Nat) (u : String) (now : DateTime) (db : DB) :
    scanAll t u now [] db = some db := rfl

theorem scanAll_cons (t : Nat) (u : String) (now : DateTime) (p : Int)
    (l : List Int) (db : DB) :
    scanAll t u now (p :: l) db =
      ((mark_loaded t p u now db).map Prod.snd).bind (fun s => scanAll t u now l s) := by
  rw [scanAll, List.foldlM_cons]
  rfl

theorem scanAll_run {t : Nat} (u : String) (now : DateTime) :
    ∀ (l : List Int) (db : DB) (H : HeaderRow),
      UniqKeys db.loadedRows → getHeader db t = some H → l.Nodup →
      (∀ p ∈ l, p ∉ loadedSet db.loadedRows t) →
      H.pkgs_total = (((loadedSet db.loadedRows t).card + l.length : Nat) : Int) →
      l ≠ [] →
      ∃ db' H', scanAll t u now l db = some db' ∧ getHeader db' t = some H' ∧
        H'.closed = true ∧ H'.en_route = true ∧ H'.loaded_at = some now ∧
        H'.pkgs_loaded = H.pkgs_total
  | [], _, _, _, _, _, _, _, hne => absurd rfl hne
  | p :: l, db, H, hU, hH, hnd, hfr, htot, _ => by
    have hp : p ∉ loadedSet db.loadedRows t := hfr p (List.mem_cons_self p l)
    rcases mark_loaded_fresh u now hU hH hp with
      ⟨db1, hml, hUq, hls, _, _, _, _, _, _, hgH⟩
    have hcard1 : (loadedSet db1.loadedRows t).card =
        (loadedSet db.loadedRows t).card + 1 := by
      rw [hls t, if_pos rfl, Finset.card_insert_of_not_mem hp]
    cases l with
    | nil =>
      have hcl : newCount db t p = H.pkgs_total := by
        rw [newCount, Finset.card_insert_of_not_mem hp, htot]
        norm_num
      rw [if_pos hcl] at hgH
      refine ⟨db1, _, ?_, hgH, rfl, rfl, rfl, hcl⟩
      rw [scanAll_cons, hml]
      rfl
    | cons q l' =>
      have hncl : ¬(newCount db t p = H.pkgs_total) := by
        rw [newCount, Finset.card_insert_of_not_mem hp, htot]
        intro hc
        have hc2 : (loadedSet db.loadedRows t).card + 1 =
            (loadedSet db.loadedRows t).card + (p :: q :: l').length := by
          exact_mod_cast hc
        simp only [List.length_cons] at hc2
        omega
      rw [if_neg hncl] at hgH
      have hnd' : (q :: l').Nodup := (List.nodup_cons.mp hnd).2
      have hpq : p ∉ q :: l' := (List.nodup_cons.mp hnd).1
      have hfr' : ∀ x ∈ q :: l', x ∉ loadedSet db1.loadedRows t := by
        intro x hx
        rw [hls t, if_pos rfl]
        intro hmem
        rcases Finset.mem_insert.mp hmem with hxp | hmem2
        · exact hpq (hxp ▸ hx)
        · exact hfr x (List.mem_cons_of_mem p hx) hmem2
      have htot' : ({ H with pkgs_loaded := newCount db t p } : HeaderRow).pkgs_total =
          (((loadedSet db1.loadedRows t).card + (q :: l').length : Nat) : Int) := by
        have h0 := htot
        simp only [List.length_cons] at h0 ⊢
        rw [hcard1]
        show H.pkgs_total = _
        rw [h0]
        congr 1
        omega
      rcases scanAll_run u now (q :: l') db1 { H with pkgs_loaded := newCount db t p }
        hUq hgH hnd' hfr' htot' (by simp) with ⟨db2, H2, h1, h2, h3, h4, h5, h6⟩
      refine ⟨db2, H2, ?_, h2, h3, h4, h5, h6⟩
      rw [scanAll_cons, hml]
      exact h1

/-- C5: starting from a trip with `pkgs_total = n`, no loaded packages
and an existing header, scanning the package numbers 1..n in any order
succeeds and leaves the trip auto-closed: `closed`, `en_route`,
`loaded_at` set and `pkgs_loaded = n`. -/
theorem scan_all_packages_closes_trip {db : DB} {t : Nat} {n : Nat} (u : String)
    (now : DateTime) {H : HeaderRow} {l : List Int}
    (hU : UniqKeys db.loadedRows) (hH : getHeader db t = some H)
    (htot : H.pkgs_total = (n : Int))
    (hempty : loadedSet db.loadedRows t = ∅) (hn : 1 ≤ n)
    (hperm : l.Perm ((List.range n).map (fun i => ((i + 1 : Nat) : Int)))) :
    ∃ db' H', scanAll t u now l db = some db' ∧ getHeader db' t = some H' ∧
      H'.closed = true ∧ H'.en_route = true ∧ H'.loaded_at = some now ∧
      H'.pkgs_loaded = (n : Int) := by
  have hlen : l.length = n := by
    rw [hperm.length_eq, List.length_map, List.length_range]
  have hinj : Function.Injective (fun i : Nat => ((i + 1 : Nat) : Int)) := by
    intro a b hab
    simp only at hab
    have : (a + 1 : Nat) = b + 1 := by exact_mod_cast hab
    omega
  have hnd : l.Nodup := hperm.nodup_iff.mpr (List.Nodup.map hinj (List.nodup_range n))
  have hfr : ∀ p ∈ l, p ∉ loadedSet db.loadedRows t := by
    intro p _
    rw [hempty]
    exact Finset.not_mem_empty p
  have htot' : H.pkgs_total =
      (((loadedSet db.loadedRows t).card + l.length : Nat) : Int) := by
    rw [hempty, Finset.card_empty, hlen, htot]
    norm_num
  have hne : l ≠ [] := by
    intro hl
    rw [hl] at hlen
    simp at hlen
    omega
  rcases scanAll_run u now l db H hU hH hnd hfr htot' hne with
    ⟨db', H', h1, h2, h3, h4, h5, h6⟩
  exact ⟨db', H', h1, h2, h3, h4, h5, by rw [h6, htot]⟩

theorem loadedSet_eq_empty {rows : List LoadedRow} {t : Nat}
    (h : ∀ r ∈ rows, r.trip_id ≠ t) : loadedSet rows t = ∅ := by
  ext x
  simp only [mem_loadedSet, Finset.not_mem_empty, iff_false]
  rintro ⟨r, hr, h1, _, _⟩
  exact h r hr h1

theorem triggerRow_pkgs_loaded (t : Nat) (c : Int) (h : HeaderRow) :
    (triggerRow t c h).pkgs_loaded = if h.id = t then c else h.pkgs_loaded := by
  rw [triggerRow]
  by_cases hk : h.id = t
  · rw [if_pos (by simpa using hk), if_pos hk]
  · rw [if_neg (by simpa using hk), if_neg hk]

theorem invAll_of_frame {db db' : DB} (hh : db'.headers = db.headers)
    (hl : db'.loadedRows = db.loadedRows) (hn : db'.nextHeaderId = db.nextHeaderId)
    (hI : InvAll db) : InvAll db' := by
  rw [InvAll, hh, hl, hn]
  exact hI

theorem set_trip_closed_shape {t : Nat} {c : Bool} {u : String} {now : DateTime}
    {db db' : DB} (h : set_trip_closed t c u now db = some db') :
    db'.headers = db.headers.map (setClosedRow t c now) ∧
    db'.loadedRows = db.loadedRows ∧ db'.shipmentLines = db.shipmentLines ∧
    db'.backorders = db.backorders ∧ db'.nextHeaderId = db.nextHeaderId ∧
    db'.nextBackorderId = db.nextBackorderId := by
  simp only [set_trip_closed] at h
  cases hg : getHeader { db with headers := db.headers.map (setClosedRow t c now) } t with
  | none =>
    rw [hg] at h
    cases h
  | some hh =>
    rw [hg] at h
    cases c
    · simp only [Bool.false_eq_true, if_false, Option.some.injEq] at h
      subst h
      exact ⟨rfl, rfl, rfl, rfl, rfl, rfl⟩
    · simp only [if_true, Option.some.injEq] at h
      subst h
      exact ⟨rfl, rfl, rfl, rfl, rfl, rfl⟩

theorem markFinish_shape {t : Nat} {p : Int} {u : String} {now : DateTime}
    {db db' : DB} {c : Nat} (h : markFinish t p u now db = some (c, db')) :
    db'.loadedRows = db.loadedRows ∧ db'.shipmentLines = db.shipmentLines ∧
    db'.backorders = db.backorders ∧ db'.nextHeaderId = db.nextHeaderId ∧
    db'.nextBackorderId = db.nextBackorderId := by
  simp only [markFinish] at h
  split at h
  · exact Option.noConfusion h
  · split at h
    · split at h
      · exact Option.noConfusion h
      · rename_i db2 hst
        simp only [Option.some.injEq, Prod.mk.injEq] at h
        obtain ⟨_, h2⟩ := h
        subst h2
        rcases set_trip_closed_shape hst with ⟨_, hl, hs, hbo, hn1, hn2⟩
        exact ⟨hl, hs, hbo, hn1, hn2⟩
    · simp only [Option.some.injEq, Prod.mk.injEq] at h
      obtain ⟨_, h2⟩ := h
      subst h2
      exact ⟨rfl, rfl, rfl, rfl, rfl⟩

theorem mark_loaded_shape {t : Nat} {p : Int} {u : String} {now : DateTime}
    {db db' : DB} {c : Nat} (h : mark_loaded t p u now db = some (c, db')) :
    db'.shipmentLines = db.shipmentLines ∧ db'.backorders = db.backorders ∧
    db'.nextHeaderId = db.nextHeaderId ∧ db'.nextBackorderId = db.nextBackorderId := by
  cases hf : db.loadedRows.find? (loadedKey t p) with
  | none =>
    rw [mark_loaded_eq_insert hf] at h
    rcases markFinish_shape h with ⟨_, hs, hbo, hn1, hn2⟩
    exact ⟨hs, hbo, hn1, hn2⟩
  | some r =>
    cases hlr : r.loaded
    · rw [mark_loaded_eq_update hf hlr] at h
      rcases markFinish_shape h with ⟨_, hs, hbo, hn1, hn2⟩
      exact ⟨hs, hbo, hn1, hn2⟩
    · rw [mark_loaded_eq_dup hf hlr] at h
      simp only [Option.some.injEq, Prod.mk.injEq] at h
      obtain ⟨_, h2⟩ := h
      subst h2
      exact ⟨rfl, rfl, rfl, rfl⟩

theorem upsert_header_shape (o d : String) (tot : Int) (cc cn rg a1 : String)
    (ir : Option String) (now : DateTime) (db : DB) :
    (upsert_header o d tot cc cn rg a1 ir now db).loadedRows = db.loadedRows ∧
    (upsert_header o d tot cc cn rg a1 ir now db).shipmentLines = db.shipmentLines ∧
    (upsert_header o d tot cc cn rg a1 ir now db).backorders = db.backorders ∧
    (upsert_header o d tot cc cn rg a1 ir now db).nextBackorderId = db.nextBackorderId := by
  rw [upsert_header]
  split <;> exact ⟨rfl, rfl, rfl, rfl⟩

theorem insert_backorder_shape (o : String) (li wh : Int) (i : String) (q : Rat)
    (e : Option String) (now : DateTime) (db : DB) :
    (insert_backorder o li wh i q e now db).headers = db.headers ∧
    (insert_backorder o li wh i q e now db).loadedRows = db.loadedRows ∧
    (insert_backorder o li wh i q e now db).shipmentLines = db.shipmentLines ∧
    (insert_backorder o li wh i q e now db).nextHeaderId = db.nextHeaderId := by
  simp only [insert_backorder]
  cases db.backorders.find? (openBackorderKey o i) <;> exact ⟨rfl, rfl, rfl, rfl⟩

theorem add_shipment_shape (o td i : String) (wh : Int) (iq qd : Rat)
    (now : DateTime) (db : DB) :
    (add_shipment o td i wh iq qd now db).headers = db.headers ∧
    (add_shipment o td i wh iq qd now db).loadedRows = db.loadedRows ∧
    (add_shipment o td i wh iq qd now db).backorders = db.backorders ∧
    (add_shipment o td i wh iq qd now db).nextHeaderId = db.nextHeaderId ∧
    (add_shipment o td i wh iq qd now db).nextBackorderId = db.nextBackorderId := by
  rw [add_shipment]
  split <;> exact ⟨rfl, rfl, rfl, rfl, rfl⟩

theorem invAll_upsert (o d : String) (tot : Int) (cc cn rg a1 : String)
    (ir : Option String) (now : DateTime) {db : DB} (hI : InvAll db) :
    InvAll (upsert_header o d tot cc cn rg a1 ir now db) := by
  obtain ⟨hU, hid, hmem, hcnt⟩ := hI
  rw [upsert_header]
  by_cases hm : db.headers.any (headerKey d o) = true
  · rw [if_pos hm]
    refine ⟨hU, ?_, ?_, ?_⟩
    · intro h hh
      rcases List.mem_map.mp hh with ⟨h0, hh0, rfl⟩
      have hid0 : (if headerKey d o h0 then upsertRow tot ir h0 else h0).id = h0.id := by
        split <;> rfl
      rw [hid0]
      exact hid h0 hh0
    · intro r hr
      rcases hmem r hr with ⟨h0, hh0, he⟩
      refine ⟨_, List.mem_map.mpr ⟨h0, hh0, rfl⟩, ?_⟩
      have hid0 : (if headerKey d o h0 then upsertRow tot ir h0 else h0).id = h0.id := by
        split <;> rfl
      rw [hid0]
      exact he
    · intro h hh
      rcases List.mem_map.mp hh with ⟨h0, hh0, rfl⟩
      have hid0 : (if headerKey d o h0 then upsertRow tot ir h0 else h0).id = h0.id := by
        split <;> rfl
      have hpl0 : (if headerKey d o h0 then upsertRow tot ir h0 else h0).pkgs_loaded =
          h0.pkgs_loaded := by
        split <;> rfl
      rw [hid0, hpl0]
      exact hcnt h0 hh0
  · rw [if_neg hm]
    refine ⟨hU, ?_, ?_, ?_⟩
    · intro h hh
      rcases List.mem_append.mp hh with h' | h'
      · exact Nat.lt_succ_of_lt (hid h h')
      · rw [List.mem_singleton] at h'
        subst h'
        exact Nat.lt_succ_self _
    · intro r hr
      rcases hmem r hr with ⟨h0, hh0, he⟩
      exact ⟨h0, List.mem_append_left _ hh0, he⟩
    · intro h hh
      rcases List.mem_append.mp hh with h' | h'
      · exact hcnt h h'
      · rw [List.mem_singleton] at h'
        subst h'
        have hempty : loadedSet db.loadedRows db.nextHeaderId = ∅ := by
          apply loadedSet_eq_empty
          intro r hr
          rcases hmem r hr with ⟨h0, hh0, he⟩
          rw [← he]
          exact Nat.ne_of_lt (hid h0 hh0)
        show (0 : Int) = _
        rw [hempty, Finset.card_empty]
        norm_num

theorem invAll_set_trip_closed {t : Nat} {c : Bool} {u : String} {now : DateTime}
    {db db' : DB} (h : set_trip_closed t c u now db = some db') (hI : InvAll db) :
    InvAll db' := by
  obtain ⟨hU, hid, hmem, hcnt⟩ := hI
  rcases set_trip_closed_shape h with ⟨hh, hl, _, _, hn1, hn2⟩
  refine ⟨by rw [hl]; exact hU, ?_, ?_, ?_⟩
  · intro x hx
    rw [hh] at hx
    rcases List.mem_map.mp hx with ⟨h0, hh0, rfl⟩
    rw [setClosedRow_id, hn1]
    exact hid h0 hh0
  · intro r hr
    rw [hl] at hr
    rcases hmem r hr with ⟨h0, hh0, he⟩
    rw [hh]
    exact ⟨_, List.mem_map.mpr ⟨h0, hh0, rfl⟩, by rw [setClosedRow_id]; exact he⟩
  · intro x hx
    rw [hh] at hx
    rcases List.mem_map.mp hx with ⟨h0, hh0, rfl⟩
    have hpl : (setClosedRow t c now h0).pkgs_loaded = h0.pkgs_loaded := by
      rw [setClosedRow]
      split <;> rfl
    rw [hpl, setClosedRow_id, hl]
    exact hcnt h0 hh0

theorem invAll_fresh {db db'' : DB} {t : Nat} {p : Int} {H : HeaderRow} (now : DateTime)
    (hI : InvAll db) (hH : getHeader db t = some H)
    (hUq : UniqKeys db''.loadedRows)
    (hls : ∀ t', loadedSet db''.loadedRows t' =
      if t' = t then insert p (loadedSet db.loadedRows t) else loadedSet db.loadedRows t')
    (hmm2 : ∀ r' ∈ db''.loadedRows, (r'.trip_id = t ∧ r'.pkg_no = p) ∨ r' ∈ db.loadedRows)
    (hn1 : db''.nextHeaderId = db.nextHeaderId)
    (hhd : db''.headers = (if newCount db t p = H.pkgs_total then
        (db.headers.map (triggerRow t (newCount db t p))).map (setClosedRow t true now)
      else db.headers.map (triggerRow t (newCount db t p)))) :
    InvAll db'' := by
  obtain ⟨hU, hid, hmem, hcnt⟩ := hI
  have hHmem : H ∈ db.headers :=
    List.mem_of_find?_eq_some (by simpa [getHeader] using hH)
  have hHid : H.id = t := by
    simpa using List.find?_some
      (show db.headers.find? (fun h => h.id == t) = some H by simpa [getHeader] using hH)
  have hform : ∀ x ∈ db''.headers, ∃ h0 ∈ db.headers,
      x.id = h0.id ∧
      x.pkgs_loaded = (if h0.id = t then newCount db t p else h0.pkgs_loaded) := by
    intro x hx
    rw [hhd] at hx
    by_cases hcl : newCount db t p = H.pkgs_total
    · rw [if_pos hcl] at hx
      rcases List.mem_map.mp hx with ⟨y, hy, rfl⟩
      rcases List.mem_map.mp hy with ⟨h0, hh0, rfl⟩
      refine ⟨h0, hh0, by rw [setClosedRow_id, triggerRow_id], ?_⟩
      have hscp : (setClosedRow t true now (triggerRow t (newCount db t p) h0)).pkgs_loaded =
          (triggerRow t (newCount db t p) h0).pkgs_loaded := by
        rw [setClosedRow]
        split <;> rfl
      rw [hscp, triggerRow_pkgs_loaded]
    · rw [if_neg hcl] at hx
      rcases List.mem_map.mp hx with ⟨h0, hh0, rfl⟩
      exact ⟨h0, hh0, triggerRow_id t _ h0, triggerRow_pkgs_loaded t _ h0⟩
  have hin : ∀ h0 ∈ db.headers, ∃ x ∈ db''.headers, x.id = h0.id := by
    intro h0 hh0
    rw [hhd]
    by_cases hcl : newCount db t p = H.pkgs_total
    · rw [if_pos hcl]
      exact ⟨_, List.mem_map.mpr ⟨_, List.mem_map.mpr ⟨h0, hh0, rfl⟩, rfl⟩,
        by rw [setClosedRow_id, triggerRow_id]⟩
    · rw [if_neg hcl]
      exact ⟨_, List.mem_map.mpr ⟨h0, hh0, rfl⟩, by rw [triggerRow_id]⟩
  refine ⟨hUq, ?_, ?_, ?_⟩
  · intro x hx
    rcases hform x hx with ⟨h0, hh0, hxid, _⟩
    rw [hxid, hn1]
    exact hid h0 hh0
  · intro r hr
    rcases hmm2 r hr with ⟨ht', _⟩ | hr'
    · rcases hin H hHmem with ⟨x, hx, hxid⟩
      exact ⟨x, hx, by rw [hxid, hHid, ht']⟩
    · rcases hmem r hr' with ⟨h0, hh0, he⟩
      rcases hin h0 hh0 with ⟨x, hx, hxid⟩
      exact ⟨x, hx, by rw [hxid]; exact he⟩
  · intro x hx
    rcases hform x hx with ⟨h0, hh0, hxid, hxpl⟩
    rw [hxpl, hxid]
    by_cases hzt : h0.id = t
    · rw [if_pos hzt, hzt, hls t, if_pos rfl, newCount]
    · rw [if_neg hzt, hls h0.id, if_neg hzt]
      exact hcnt h0 hh0

theorem getHeader_loadedRows_set (db : DB) (rows : List LoadedRow) (t : Nat) :
    getHeader { db with loadedRows := rows } t = getHeader db t := rfl

theorem getHeader_applyTrigger (t : Nat) (db : DB) (t' : Nat) :
    getHeader (applyTrigger t db) t' =
      (getHeader db t').map (triggerRow t ((loadedSet db.loadedRows t).card : Int)) := by
  rw [applyTrigger]
  exact getHeader_headers_map db _ (triggerRow_id t _) t'

theorem markFinish_none {t : Nat} {p : Int} {u : String} {now : DateTime} {db : DB}
    (hH : getHeader db t = none) : markFinish t p u now db = none := by
  simp only [markFinish, hH]

theorem invAll_mark_loaded {t : Nat} {p : Int} {u : String} {now : DateTime}
    {db db' : DB} {c : Nat} (h : mark_loaded t p u now db = some (c, db'))
    (hI : InvAll db) : InvAll db' := by
  cases hf : db.loadedRows.find? (loadedKey t p) with
  | some r =>
    cases hlr : r.loaded
    · have hp := not_mem_loadedSet_of_find?_unloaded hI.1 hf hlr
      cases hH : getHeader db t with
      | none =>
        exfalso
        have hml0 : mark_loaded t p u now db = none := by
          rw [mark_loaded_eq_update hf hlr]
          apply markFinish_none
          rw [getHeader_applyTrigger, getHeader_loadedRows_set, hH]
          rfl
        rw [hml0] at h
        exact Option.noConfusion h
      | some H =>
        rcases mark_loaded_fresh u now hI.1 hH hp with
          ⟨db'', hml, hUq, hls, hmm2, _, _, hn1, _, hhd, _⟩
        rw [hml] at h
        simp only [Option.some.injEq, Prod.mk.injEq] at h
        obtain ⟨_, h2⟩ := h
        subst h2
        exact invAll_fresh now hI hH hUq hls hmm2 hn1 hhd
    · rw [mark_loaded_eq_dup hf hlr] at h
      simp only [Option.some.injEq, Prod.mk.injEq] at h
      obtain ⟨_, h2⟩ := h
      subst h2
      exact hI
  | none =>
    have hp := not_mem_loadedSet_of_find?_none hf
    cases hH : getHeader db t with
    | none =>
      exfalso
      have hml0 : mark_loaded t p u now db = none := by
        rw [mark_loaded_eq_insert hf]
        apply markFinish_none
        rw [getHeader_applyTrigger, getHeader_loadedRows_set, hH]
        rfl
      rw [hml0] at h
      exact Option.noConfusion h
    | some H =>
      rcases mark_loaded_fresh u now hI.1 hH hp with
        ⟨db'', hml, hUq, hls, hmm2, _, _, hn1, _, hhd, _⟩
      rw [hml] at h
      simp only [Option.some.injEq, Prod.mk.injEq] at h
      obtain ⟨_, h2⟩ := h
      subst h2
      exact invAll_fresh now hI hH hUq hls hmm2 hn1 hhd

theorem invAll_step {db db' : DB} (h : Step db db') (hI : InvAll db) : InvAll db' := by
  cases h with
  | upsert o d tot cc cn rg a1 ir now db => exact invAll_upsert o d tot cc cn rg a1 ir now hI
  | markLoaded t p u now db db' c hml => exact invAll_mark_loaded hml hI
  | setClosed t c u now db db' hst => exact invAll_set_trip_closed hst hI
  | insertBackorder o li wh i q e now db =>
    rcases insert_backorder_shape o li wh i q e now db with ⟨hh, hl, _, hn⟩
    exact invAll_of_frame hh hl hn hI
  | markFulfilled bid now db => exact invAll_of_frame rfl rfl rfl hI
  | addShipment o td i wh iq qd now db =>
    rcases add_shipment_shape o td i wh iq qd now db with ⟨hh, hl, _, hn, _⟩
    exact invAll_of_frame hh hl hn hI

/-- C1: in every state reachable by the core operations, every trip
header's `pkgs_loaded` equals the number of distinct `pkg_no` values
with `loaded = 1` in `shipment_loaded` for that trip. -/
theorem pkgs_loaded_matches_loaded_count (db : DB) (h : Reachable db) :
    ∀ H ∈ db.headers, H.pkgs_loaded = ((loadedSet db.loadedRows H.id).card : Int) := by
  have hI : InvAll db := by
    induction h with
    | refl =>
      refine ⟨List.Pairwise.nil, ?_, ?_, ?_⟩ <;> intro x hx <;> cases hx
    | tail _ hstep ih => exact invAll_step hstep ih
  exact hI.2.2.2

theorem headerKey_upsertRow (d o : String) (tot : Int) (ir : Option String)
    (h : HeaderRow) : headerKey d o (upsertRow tot ir h) = headerKey d o h := rfl

theorem upsert_matched {db : DB} (d o : String) (tot : Int) (cc cn rg a1 : String)
    (ir : Option String) (now : DateTime) {H : HeaderRow}
    (hH : getHeaderByKey db d o = some H) :
    getHeaderByKey (upsert_header o d tot cc cn rg a1 ir now db) d o =
      some (upsertRow tot ir H) := by
  have hfind : db.headers.find? (headerKey d o) = some H := hH
  have hany : db.headers.any (headerKey d o) = true := by
    rw [List.any_eq_true]
    exact ⟨H, List.mem_of_find?_eq_some hfind, List.find?_some hfind⟩
  have hpres : ∀ h : HeaderRow,
      headerKey d o (if headerKey d o h then upsertRow tot ir h else h) =
        headerKey d o h := by
    intro h
    by_cases hk : headerKey d o h = true
    · rw [if_pos hk]
      rfl
    · rw [if_neg (by simpa using hk)]
  rw [upsert_header, if_pos hany, getHeaderByKey]
  show (db.headers.map (fun h => if headerKey d o h then upsertRow tot ir h else h)).find?
    (headerKey d o) = _
  rw [find?_map_comm _ _ hpres db.headers, hfind, Option.map_some',
    if_pos (List.find?_some hfind)]

theorem upsert_unmatched {db : DB} (d o : String) (tot : Int) (cc cn rg a1 : String)
    (ir : Option String) (now : DateTime) (hH : getHeaderByKey db d o = none) :
    getHeaderByKey (upsert_header o d tot cc cn rg a1 ir now db) d o =
      some (⟨db.nextHeaderId, d, o, cc, cn, rg, a1, tot, 0, false, false, none, ir,
        none, false, now⟩ : HeaderRow) := by
  have hfind : db.headers.find? (headerKey d o) = none := hH
  have hany : ¬(db.headers.any (headerKey d o) = true) := by
    rw [List.any_eq_true]
    rintro ⟨x, hx, hk⟩
    exact absurd hk (by simpa using List.find?_eq_none.mp hfind x hx)
  rw [upsert_header, if_neg hany, getHeaderByKey]
  show (db.headers ++ [_]).find? (headerKey d o) = _
  rw [List.find?_append, hfind, Option.none_or]
  have hk : headerKey d o (⟨db.nextHeaderId, d, o, cc, cn, rg, a1, tot, 0, false,
      false, none, ir, none, false, now⟩ : HeaderRow) = true := by
    simp [headerKey]
  rw [List.find?_cons, hk]

/-- C4: re-upserting an existing `(trip_date, order_no)` header sets
`pkgs_total` to the maximum of the old and new values and resets
`closed` to false; in particular two upserts with totals `t1 ≤ t2`
starting from a state without the key end with `pkgs_total = t2` and
an open trip. -/
theorem upsert_header_grows_total_and_reopens :
    (∀ (db : DB) (d o : String) (tot : Int) (cc cn rg a1 : String)
      (ir : Option String) (now : DateTime) (H : HeaderRow),
      getHeaderByKey db d o = some H →
      ∃ H', getHeaderByKey (upsert_header o d tot cc cn rg a1 ir now db) d o = some H' ∧
        H'.pkgs_total = max H.pkgs_total tot ∧ H'.closed = false) ∧
    (∀ (db : DB) (d o : String) (t1 t2 : Int) (cc1 cn1 rg1 a11 cc2 cn2 rg2 a12 : String)
      (ir1 ir2 : Option String) (n1 n2 : DateTime),
      getHeaderByKey db d o = none → t1 ≤ t2 →
      ∃ H', getHeaderByKey (upsert_header o d t2 cc2 cn2 rg2 a12 ir2 n2
          (upsert_header o d t1 cc1 cn1 rg1 a11 ir1 n1 db)) d o = some H' ∧
        H'.pkgs_total = t2 ∧ H'.closed = false) := by
  have hmax : ∀ (H : HeaderRow) (tot : Int) (ir : Option String),
      (upsertRow tot ir H).pkgs_total = max H.pkgs_total tot := by
    intro H tot ir
    show (if tot > H.pkgs_total then tot else H.pkgs_total) = max H.pkgs_total tot
    by_cases hlt : tot > H.pkgs_total
    · rw [if_pos hlt, max_eq_right (le_of_lt hlt)]
    · rw [if_neg hlt, max_eq_left (not_lt.mp hlt)]
  constructor
  · intro db d o tot cc cn rg a1 ir now H hH
    exact ⟨upsertRow tot ir H, upsert_matched d o tot cc cn rg a1 ir now hH,
      hmax H tot ir, rfl⟩
  · intro db d o t1 t2 cc1 cn1 rg1 a11 cc2 cn2 rg2 a12 ir1 ir2 n1 n2 hH hle
    have h1 := upsert_unmatched d o t1 cc1 cn1 rg1 a11 ir1 n1 hH
    refine ⟨_, upsert_matched d o t2 cc2 cn2 rg2 a12 ir2 n2 h1, ?_, rfl⟩
    rw [hmax]
    show max t1 t2 = t2
    exact max_eq_right hle

/-- C10: a matched upsert may change only `pkgs_total`, `closed` and a
previously NULL `invoice_root`; every other field of the header row,
including `en_route` of a previously closed trip, keeps its value, and
`invoice_root` keeps its first non-NULL value. -/
theorem upsert_header_frame {db : DB} (d o : String) (tot : Int)
    (cc cn rg a1 : String) (ir : Option String) (now : DateTime) {H : HeaderRow}
    (hH : getHeaderByKey db d o = some H) :
    ∃ H', getHeaderByKey (upsert_header o d tot cc cn rg a1 ir now db) d o = some H' ∧
      H'.id = H.id ∧ H'.trip_date = H.trip_date ∧ H'.order_no = H.order_no ∧
      H'.customer_code = H.customer_code ∧ H'.customer_name = H.customer_name ∧
      H'.region = H.region ∧ H'.address1 = H.address1 ∧
      H'.pkgs_loaded = H.pkgs_loaded ∧ H'.loaded_at = H.loaded_at ∧
      H'.en_route = H.en_route ∧ H'.qr_token = H.qr_token ∧
      H'.printed = H.printed ∧ H'.created_at = H.created_at ∧
      H'.invoice_root = (match H.invoice_root with
        | some r => some r
        | none => ir) :=
  ⟨upsertRow tot ir H, upsert_matched d o tot cc cn rg a1 ir now hH,
    rfl, rfl, rfl, rfl, rfl, rfl, rfl, rfl, rfl, rfl, rfl, rfl, rfl, rfl⟩

theorem pickMinId_eq_none_iff : ∀ {l : List HeaderRow}, pickMinId l = none ↔ l = []
  | [] => by simp [pickMinId]
  | a :: t => by
    rw [pickMinId]
    cases hp : pickMinId t with
    | none => simp
    | some m =>
      by_cases hlt : m.id < a.id
      · simp [hlt]
      · simp [hlt]

theorem pickMinId_mem : ∀ {l : List HeaderRow} {m : HeaderRow},
    pickMinId l = some m → m ∈ l
  | [], m, h => by cases h
  | a :: t, m, h => by
    rw [pickMinId] at h
    cases hp : pickMinId t with
    | none =>
      rw [hp] at h
      injection h with h2
      exact h2 ▸ List.mem_cons_self a t
    | some mm =>
      rw [hp] at h
      dsimp only at h
      by_cases hlt : mm.id < a.id
      · rw [if_pos hlt] at h
        injection h with h2
        exact List.mem_cons_of_mem a (h2 ▸ pickMinId_mem hp)
      · rw [if_neg hlt] at h
        injection h with h2
        exact h2 ▸ List.mem_cons_self a t

theorem pickMinId_le : ∀ {l : List HeaderRow} {m : HeaderRow},
    pickMinId l = some m → ∀ x ∈ l, m.id ≤ x.id
  | [], m, h => by cases h
  | a :: t, m, h => by
    intro x hx
    rw [pickMinId] at h
    cases hp : pickMinId t with
    | none =>
      rw [hp] at h
      injection h with h2
      subst h2
      have ht : t = [] := pickMinId_eq_none_iff.mp hp
      subst ht
      rcases List.mem_cons.mp hx with h3 | h3
      · rw [h3]
      · cases h3
    | some mm =>
      rw [hp] at h
      dsimp only at h
      rcases List.mem_cons.mp hx with h3 | h3
      · by_cases hlt : mm.id < a.id
        · rw [if_pos hlt] at h
          injection h with h2
          subst h2
          rw [h3]
          exact le_of_lt hlt
        · rw [if_neg hlt] at h
          injection h with h2
          subst h2
          rw [h3]
      · have hle := pickMinId_le hp x h3
        by_cases hlt : mm.id < a.id
        · rw [if_pos hlt] at h
          injection h with h2
          subst h2
          exact hle
        · rw [if_neg hlt] at h
          injection h with h2
          subst h2
          exact le_trans (not_lt.mp hlt) hle

theorem tripCandidate_iff {inv : String} {day : Option String} {h : HeaderRow} :
    tripCandidate inv day h = true ↔ IsCandidate inv day h := by
  cases day with
  | none =>
    simp [tripCandidate, IsCandidate, and_assoc]
  | some d =>
    simp only [tripCandidate, IsCandidate, Bool.and_eq_true, beq_iff_eq,
      Bool.not_eq_true', decide_eq_true_eq]
    constructor
    · rintro ⟨⟨⟨h1, h2⟩, h3⟩, h4⟩
      exact ⟨h1, h2, h3, fun x hx => by injection hx with hx; exact hx ▸ h4⟩
    · rintro ⟨h1, h2, h3, h4⟩
      exact ⟨⟨⟨h1, h2⟩, h3⟩, h4 d rfl⟩

/-- C6: `trip_by_barkod` returns, among the headers matching the
invoice root that are open (`closed = 0`, `pkgs_loaded < pkgs_total`)
and, when a day is supplied, created on that day, the one with the
lowest id, as `(trip_id, pkgs_total)`; it returns `None` exactly when
no such open trip exists. -/
theorem trip_resolve_lowest_open_trip :
    (∀ (db : DB) (inv : String) (day : Option String) (t : Nat) (tot : Int),
      trip_by_barkod inv day db = some (t, tot) →
      ∃ h ∈ db.headers, h.id = t ∧ h.pkgs_total = tot ∧ IsCandidate inv day h ∧
        ∀ g ∈ db.headers, IsCandidate inv day g → t ≤ g.id) ∧
    (∀ (db : DB) (inv : String) (day : Option String),
      trip_by_barkod inv day db = none ↔
        ∀ h ∈ db.headers, ¬ IsCandidate inv day h) := by
  constructor
  · intro db inv day t tot h
    rw [trip_by_barkod] at h
    rcases Option.map_eq_some'.mp h with ⟨m, hm, hpair⟩
    have hmem := pickMinId_mem hm
    have hle := pickMinId_le hm
    rw [List.mem_filter] at hmem
    injection hpair with h1 h2
    refine ⟨m, hmem.1, h1, h2, tripCandidate_iff.mp hmem.2, ?_⟩
    intro g hg hcand
    rw [← h1]
    exact hle g (List.mem_filter.mpr ⟨hg, tripCandidate_iff.mpr hcand⟩)
  · intro db inv day
    rw [trip_by_barkod, Option.map_eq_none', pickMinId_eq_none_iff,
      List.filter_eq_nil_iff]
    constructor
    · intro hnone h hh hcand
      exact hnone h hh (tripCandidate_iff.mpr hcand)
    · intro hnone h hh hcand
      exact hnone h hh (tripCandidate_iff.mp (by simpa using hcand))

theorem add_shipment_matched {db : DB} (o td i : String) (wh : Int) (iq qd : Rat)
    (now : DateTime) {r : ShipmentLineRow} (hr : findLine db o i = some r) :
    findLine (add_shipment o td i wh iq qd now db) o i =
      some { r with qty_shipped := r.qty_shipped + qd, last_update := now } := by
  have hfind : db.shipmentLines.find? (lineKey o i) = some r := hr
  have hany : db.shipmentLines.any (lineKey o i) = true := by
    rw [List.any_eq_true]
    exact ⟨r, List.mem_of_find?_eq_some hfind, List.find?_some hfind⟩
  have hpres : ∀ l : ShipmentLineRow,
      lineKey o i (if lineKey o i l then
        { l with qty_shipped := l.qty_shipped + qd, last_update := now } else l) =
      lineKey o i l := by
    intro l
    by_cases hk : lineKey o i l = true
    · rw [if_pos hk]
      rfl
    · rw [if_neg (by simpa using hk)]
  rw [add_shipment, if_pos hany, findLine]
  show (db.shipmentLines.map (fun l => if lineKey o i l then
      { l with qty_shipped := l.qty_shipped + qd, last_update := now } else l)).find?
    (lineKey o i) = _
  rw [find?_map_comm _ _ hpres db.shipmentLines, hfind, Option.map_some',
    if_pos (List.find?_some hfind)]

theorem add_shipment_unmatched {db : DB} (o td i : String) (wh : Int) (iq qd : Rat)
    (now : DateTime) (hN : findLine db o i = none) :
    (add_shipment o td i wh iq qd now db).shipmentLines =
      db.shipmentLines ++ [(⟨o, i, wh, iq, qd, false, now⟩ : ShipmentLineRow)] := by
  have hfind : db.shipmentLines.find? (lineKey o i) = none := hN
  have hany : ¬(db.shipmentLines.any (lineKey o i) = true) := by
    rw [List.any_eq_true]
    rintro ⟨x, hx, hk⟩
    exact absurd hk (by simpa using List.find?_eq_none.mp hfind x hx)
  rw [add_shipment, if_neg hany]

theorem add_shipment_many_cons (o i : String) (c : Int × Rat × Rat × DateTime)
    (cs : List (Int × Rat × Rat × DateTime)) (db : DB) :
    add_shipment_many o i (c :: cs) db =
      add_shipment_many o i cs (add_shipment o "" i c.1 c.2.1 c.2.2.1 c.2.2.2 db) := rfl

theorem add_shipment_many_keeps_invoiced (o i : String) :
    ∀ (calls : List (Int × Rat × Rat × DateTime)) (db : DB) (r : ShipmentLineRow),
      findLine db o i = some r →
      ∃ r', findLine (add_shipment_many o i calls db) o i = some r' ∧
        r'.invoiced_qty = r.invoiced_qty ∧
        r'.qty_shipped = r.qty_shipped + (calls.map (fun c => c.2.2.1)).sum
  | [], db, r, hr => ⟨r, hr, rfl, by simp⟩
  | c :: cs, db, r, hr => by
    have h1 := add_shipment_matched o "" i c.1 c.2.1 c.2.2.1 c.2.2.2 hr
    rcases add_shipment_many_keeps_invoiced o i cs _ _ h1 with ⟨r', hr', hinv, hqty⟩
    refine ⟨r', by rw [add_shipment_many_cons]; exact hr', hinv, ?_⟩
    rw [hqty]
    show r.qty_shipped + c.2.2.1 + _ = _
    rw [List.map_cons, List.sum_cons]
    ring

/-- C8: the first `add_shipment` for an `(order_no, item_code)` key
inserts a line with `qty_shipped = qty_delta` and the passed
`invoiced_qty`; each later call for the same key adds its `qty_delta`
to `qty_shipped` and refreshes `last_update` while keeping
`invoiced_qty` from the first insert, also over any sequence of later
calls. -/
theorem add_shipment_accumulates :
    (∀ (db : DB) (o td i : String) (wh : Int) (iq qd : Rat) (now : DateTime),
      findLine db o i = none →
      (add_shipment o td i wh iq qd now db).shipmentLines =
        db.shipmentLines ++ [⟨o, i, wh, iq, qd, false, now⟩]) ∧
    (∀ (db : DB) (o td i : String) (wh : Int) (iq qd : Rat) (now : DateTime)
      (r : ShipmentLineRow), findLine db o i = some r →
      findLine (add_shipment o td i wh iq qd now db) o i =
        some { r with qty_shipped := r.qty_shipped + qd, last_update := now }) ∧
    (∀ (o i : String) (calls : List (Int × Rat × Rat × DateTime)) (db : DB)
      (r : ShipmentLineRow), findLine db o i = some r →
      ∃ r', findLine (add_shipment_many o i calls db) o i = some r' ∧
        r'.invoiced_qty = r.invoiced_qty ∧
        r'.qty_shipped = r.qty_shipped + (calls.map (fun c => c.2.2.1)).sum) :=
  ⟨fun _ o td i wh iq qd now hN => add_shipment_unmatched o td i wh iq qd now hN,
   fun _ o td i wh iq qd now _ hr => add_shipment_matched o td i wh iq qd now hr,
   fun o i calls db r hr => add_shipment_many_keeps_invoiced o i calls db r hr⟩

theorem insert_backorder_update {db : DB} (o : String) (li wh : Int) (i : String)
    (q : Rat) (e : Option String) (now : DateTime) {r : BackorderRow}
    (hr : db.backorders.find? (openBackorderKey o i) = some r) :
    (insert_backorder o li wh i q e now db).backorders =
      db.backorders.map (fun b =>
        if b.id == r.id then { b with qty_missing := b.qty_missing + q } else b) ∧
    (insert_backorder o li wh i q e now db).nextBackorderId = db.nextBackorderId := by
  simp only [insert_backorder, hr]
  exact ⟨trivial, trivial⟩

theorem insert_backorder_insert {db : DB} (o : String) (li wh : Int) (i : String)
    (q : Rat) (e : Option String) (now : DateTime)
    (hN : db.backorders.find? (openBackorderKey o i) = none) :
    (insert_backorder o li wh i q e now db).backorders =
      db.backorders ++ [(⟨db.nextBackorderId, o, li, wh, i, q, e, false, now, none⟩ :
        BackorderRow)] := by
  simp only [insert_backorder, hN]

/-- C7: when an open backorder row for `(order_no, item_code)` exists,
`insert_backorder` adds the quantity to it and creates no new row;
otherwise it inserts a fresh open row; two calls with quantities
`q1` then `q2` from a state with no open row for the key leave exactly
one open row carrying `q1 + q2`. -/
theorem insert_backorder_merges :
    (∀ (db : DB) (o : String) (li wh : Int) (i : String) (q : Rat)
      (e : Option String) (now : DateTime) (r : BackorderRow),
      db.backorders.find? (openBackorderKey o i) = some r →
      (insert_backorder o li wh i q e now db).backorders.length =
        db.backorders.length ∧
      (insert_backorder o li wh i q e now db).nextBackorderId = db.nextBackorderId ∧
      ∃ b ∈ (insert_backorder o li wh i q e now db).backorders,
        b.id = r.id ∧ b.qty_missing = r.qty_missing + q ∧ b.fulfilled = false) ∧
    (∀ (db : DB) (o : String) (li wh : Int) (i : String) (q : Rat)
      (e : Option String) (now : DateTime),
      db.backorders.find? (openBackorderKey o i) = none →
      (insert_backorder o li wh i q e now db).backorders =
        db.backorders ++ [⟨db.nextBackorderId, o, li, wh, i, q, e, false, now, none⟩]) ∧
    (∀ (db : DB) (o : String) (li wh li2 wh2 : Int) (i : String) (q1 q2 : Rat)
      (e1 e2 : Option String) (n1 n2 : DateTime),
      (∀ b ∈ db.backorders, b.id < db.nextBackorderId) →
      openRowsFor db o i = [] →
      openRowsFor (insert_backorder o li2 wh2 i q2 e2 n2
          (insert_backorder o li wh i q1 e1 n1 db)) o i =
        [⟨db.nextBackorderId, o, li, wh, i, q1 + q2, e1, false, n1, none⟩]) := by
  refine ⟨?_, ?_, ?_⟩
  · intro db o li wh i q e now r hr
    obtain ⟨hb, hn⟩ := insert_backorder_update o li wh i q e now hr
    have hrmem := List.mem_of_find?_eq_some hr
    have hkey := List.find?_some hr
    have hful : r.fulfilled = false := by
      simp only [openBackorderKey, Bool.and_eq_true, Bool.not_eq_true'] at hkey
      exact hkey.1.1
    refine ⟨by rw [hb, List.length_map], hn,
      ⟨{ r with qty_missing := r.qty_missing + q }, ?_, rfl, rfl, hful⟩⟩
    rw [hb]
    refine List.mem_map.mpr ⟨r, hrmem, ?_⟩
    rw [if_pos (by simp)]
  · intro db o li wh i q e now hN
    exact insert_backorder_insert o li wh i q e now hN
  · intro db o li wh li2 wh2 i q1 q2 e1 e2 n1 n2 hids hopen
    have hfilter1 : db.backorders.filter (openBackorderKey o i) = [] := hopen
    have hN : db.backorders.find? (openBackorderKey o i) = none := by
      rw [List.find?_eq_none]
      intro b hbm hkb
      have hmem : b ∈ db.backorders.filter (openBackorderKey o i) :=
        List.mem_filter.mpr ⟨hbm, hkb⟩
      rw [hfilter1] at hmem
      cases hmem
    have h1 := insert_backorder_insert o li wh i q1 e1 n1 hN
    have hk0 : openBackorderKey o i
        (⟨db.nextBackorderId, o, li, wh, i, q1, e1, false, n1, none⟩ : BackorderRow)
        = true := by
      simp [openBackorderKey]
    have hf2 : (insert_backorder o li wh i q1 e1 n1 db).backorders.find?
        (openBackorderKey o i) =
        some (⟨db.nextBackorderId, o, li, wh, i, q1, e1, false, n1, none⟩ :
          BackorderRow) := by
      rw [h1, List.find?_append, hN, Option.none_or, List.find?_cons, hk0]
    obtain ⟨hb2, _⟩ := insert_backorder_update o li2 wh2 i q2 e2 n2 hf2
    rw [openRowsFor, hb2, h1, List.map_append]
    have hmap1 : db.backorders.map (fun b =>
        if b.id == (⟨db.nextBackorderId, o, li, wh, i, q1, e1, false, n1, none⟩ :
          BackorderRow).id then
          { b with qty_missing := b.qty_missing + q2 } else b) = db.backorders := by
      apply map_ite_id
      intro b hbm
      have hne : b.id ≠ db.nextBackorderId := Nat.ne_of_lt (hids b hbm)
      simpa using hne
    rw [hmap1, List.map_cons, List.map_nil, if_pos (by simp), List.filter_append,
      hfilter1, List.nil_append, List.filter_cons]
    rw [if_pos ?hkey]
    case hkey =>
      simp [openBackorderKey]
    rfl

theorem fulfilledAt_of_backorders_eq {db db' : DB}
    (h : db'.backorders = db.backorders) {i : Nat} (hf : FulfilledAt db i) :
    FulfilledAt db' i := by
  rw [FulfilledAt, h]
  exact hf

theorem step_keeps_fulfilled {db db' : DB} (h : Step db db') (i : Nat)
    (hf : FulfilledAt db i) : FulfilledAt db' i := by
  cases h with
  | upsert o d tot cc cn rg a1 ir now db =>
    rcases upsert_header_shape o d tot cc cn rg a1 ir now db with ⟨_, _, hbo, _⟩
    exact fulfilledAt_of_backorders_eq hbo hf
  | markLoaded t p u now db db' c hml =>
    rcases mark_loaded_shape hml with ⟨_, hbo, _, _⟩
    exact fulfilledAt_of_backorders_eq hbo hf
  | setClosed t c u now db db' hst =>
    rcases set_trip_closed_shape hst with ⟨_, _, _, hbo, _, _⟩
    exact fulfilledAt_of_backorders_eq hbo hf
  | insertBackorder o li wh j q e now db =>
    rcases hf with ⟨b, hb, hid, hful⟩
    cases hfind : db.backorders.find? (openBackorderKey o j) with
    | some r =>
      obtain ⟨hbeq, _⟩ := insert_backorder_update o li wh j q e now hfind
      have h1 : (if b.id == r.id then { b with qty_missing := b.qty_missing + q }
          else b).id = b.id := by
        split <;> rfl
      have h2 : (if b.id == r.id then { b with qty_missing := b.qty_missing + q }
          else b).fulfilled = b.fulfilled := by
        split <;> rfl
      refine ⟨if b.id == r.id then { b with qty_missing := b.qty_missing + q }
        else b, ?_, ?_, ?_⟩
      · rw [hbeq]
        exact List.mem_map.mpr ⟨b, hb, rfl⟩
      · rw [h1]
        exact hid
      · rw [h2]
        exact hful
    | none =>
      obtain hbeq := insert_backorder_insert o li wh j q e now hfind
      refine ⟨b, ?_, hid, hful⟩
      rw [hbeq]
      exact List.mem_append_left _ hb
  | markFulfilled bid now db =>
    rcases hf with ⟨b, hb, hid, hful⟩
    have h1 : (if b.id == bid then { b with fulfilled := true, fulfilled_at := some now }
        else b).id = b.id := by
      split <;> rfl
    refine ⟨if b.id == bid then { b with fulfilled := true, fulfilled_at := some now }
      else b, List.mem_map.mpr ⟨b, hb, rfl⟩, by rw [h1]; exact hid, ?_⟩
    by_cases hk : (b.id == bid) = true
    · rw [if_pos hk]
    · rw [if_neg (by simpa using hk)]
      exact hful
  | addShipment o td j wh iq qd now db =>
    rcases add_shipment_shape o td j wh iq qd now db with ⟨_, _, hbo, _, _⟩
    exact fulfilledAt_of_backorders_eq hbo hf

/-- C9: once a backorder row is fulfilled, it stays fulfilled in every
state reachable from there by the core operations (the list
projections are pure reads and produce no new state). -/
theorem fulfilled_never_reverts {db db' : DB}
    (h : Relation.ReflTransGen Step db db') (i : Nat) (hf : FulfilledAt db i) :
    FulfilledAt db' i := by
  induction h with
  | refl => exact hf
  | tail _ hstep ih => exact step_keeps_fulfilled hstep i ih

/-- C3 counterexample: `mark_loaded` itself performs no
`1 <= pkg_no <= pkgs_total` validation.  Scanning package number 4 on
a trip with `pkgs_total = 3` and nothing loaded returns the Loaded
code 1 (not a CapacityExceeded error), inserts a `shipment_loaded`
row, and raises `pkgs_loaded` from 0 to 1. -/
theorem mark_loaded_accepts_out_of_range :
    (mark_loaded 1 4 "op" egNow1 egTripDB3).map
      (fun r => (r.1, r.2.loadedRows.length,
        (getHeader r.2 1).map (fun h => h.pkgs_loaded))) = some (1, 1, some 1) := by
  rfl

/-- C3 (amended): the range validation lives in the caller
`LoaderPage.on_scan`: once the barcode resolves to a trip, a package
number outside `1 <= pkg_no <= pkgs_total` yields the capacity error
and leaves the store untouched (`mark_loaded` is never called). -/
theorem on_scan_capacity_exceeded {db : DB} (inv u : String) (now : DateTime)
    {t : Nat} {tot : Int} (p : Int)
    (hres : trip_by_barkod inv none db = some (t, tot))
    (hout : ¬(1 ≤ p ∧ p ≤ tot)) :
    scan_resolved inv p u now db = some (ScanResult.capacity_exceeded, db) := by
  simp only [scan_resolved, hres, if_neg hout]

theorem pkgs_loaded_matches_loaded_count_witness :
    egLoadedDB.headers.all
      (fun H => H.pkgs_loaded == ((loadedSet egLoadedDB.loadedRows H.id).card : Int))
      = true := by
  have h1 : Step initDB egTripDB :=
    Step.upsert "SO1" "2025-01-02" 2 "" "" "" "" (some "CAN100") egNow initDB
  have h2 : mark_loaded 1 1 "op" egNow1 egTripDB = some (1, egLoadedDB) := by rfl
  have h3 : Step egTripDB egLoadedDB :=
    Step.markLoaded 1 1 "op" egNow1 egTripDB egLoadedDB 1 h2
  have hre : Reachable egLoadedDB :=
    Relation.ReflTransGen.head h1 (Relation.ReflTransGen.single h3)
  have h := pkgs_loaded_matches_loaded_count egLoadedDB hre
  rw [List.all_eq_true]
  intro H hH
  simpa using h H hH

theorem mark_loaded_twice_witness :
    UniqKeys egTripDB.loadedRows ∧ getHeader egTripDB 1 = some egHeader ∧
    (1 : Int) ∉ loadedSet egTripDB.loadedRows 1 ∧
    egHeader.pkgs_loaded = ((loadedSet egTripDB.loadedRows 1).card : Int) ∧
    ∃ db' H', mark_loaded 1 1 "op" egNow1 egTripDB = some (1, db') ∧
      mark_loaded 1 1 "op2" egNow2 db' = some (0, db') ∧
      getHeader db' 1 = some H' ∧ H'.pkgs_loaded = egHeader.pkgs_loaded + 1 := by
  have hU : UniqKeys egTripDB.loadedRows := List.Pairwise.nil
  have hH : getHeader egTripDB 1 = some egHeader := rfl
  have hp : (1 : Int) ∉ loadedSet egTripDB.loadedRows 1 := by decide
  have hInv : egHeader.pkgs_loaded = ((loadedSet egTripDB.loadedRows 1).card : Int) := by
    decide
  exact ⟨hU, hH, hp, hInv, mark_loaded_twice "op" "op2" egNow1 egNow2 hU hH hp hInv⟩

theorem on_scan_capacity_exceeded_witness :
    trip_by_barkod "CAN200" none egTripDB3 = some (1, 3) ∧
    ¬(1 ≤ (4 : Int) ∧ (4 : Int) ≤ 3) ∧
    scan_resolved "CAN200" 4 "op" egNow1 egTripDB3 =
      some (ScanResult.capacity_exceeded, egTripDB3) := by
  have h1 : trip_by_barkod "CAN200" none egTripDB3 = some (1, 3) := rfl
  have h2 : ¬(1 ≤ (4 : Int) ∧ (4 : Int) ≤ 3) := by decide
  exact ⟨h1, h2, on_scan_capacity_exceeded "CAN200" "op" egNow1 4 h1 h2⟩

theorem upsert_header_grows_total_and_reopens_witness :
    getHeaderByKey initDB "2025-01-02" "SO1" = none ∧ (3 : Int) ≤ 5 ∧
    ∃ H', getHeaderByKey (upsert_header "SO1" "2025-01-02" 5 "" "" "" ""
        (some "CAN100") egNow1
        (upsert_header "SO1" "2025-01-02" 3 "" "" "" "" (some "CAN100") egNow initDB))
      "2025-01-02" "SO1" = some H' ∧ H'.pkgs_total = 5 ∧ H'.closed = false := by
  have h1 : getHeaderByKey initDB "2025-01-02" "SO1" = none := rfl
  have h2 : (3 : Int) ≤ 5 := by decide
  exact ⟨h1, h2, upsert_header_grows_total_and_reopens.2 initDB "2025-01-02" "SO1"
    3 5 "" "" "" "" "" "" "" "" (some "CAN100") (some "CAN100") egNow egNow1 h1 h2⟩

theorem scan_all_packages_closes_trip_witness :
    UniqKeys egTripDB3.loadedRows ∧ getHeader egTripDB3 1 = some egHeader3 ∧
    egHeader3.pkgs_total = ((3 : Nat) : Int) ∧
    loadedSet egTripDB3.loadedRows 1 = ∅ ∧ (1 : Nat) ≤ 3 ∧
    ([2, 3, 1] : List Int).Perm ((List.range 3).map (fun i => ((i + 1 : Nat) : Int))) ∧
    ∃ db' H', scanAll 1 "op" egNow1 [2, 3, 1] egTripDB3 = some db' ∧
      getHeader db' 1 = some H' ∧ H'.closed = true ∧ H'.en_route = true ∧
      H'.loaded_at = some egNow1 ∧ H'.pkgs_loaded = ((3 : Nat) : Int) := by
  have hU : UniqKeys egTripDB3.loadedRows := List.Pairwise.nil
  have hH : getHeader egTripDB3 1 = some egHeader3 := rfl
  have htot : egHeader3.pkgs_total = ((3 : Nat) : Int) := by decide
  have hempty : loadedSet egTripDB3.loadedRows 1 = ∅ := rfl
  have hn : (1 : Nat) ≤ 3 := by decide
  have hperm : ([2, 3, 1] : List Int).Perm
      ((List.range 3).map (fun i => ((i + 1 : Nat) : Int))) := by decide
  exact ⟨hU, hH, htot, hempty, hn, hperm,
    scan_all_packages_closes_trip "op" egNow1 hU hH htot hempty hn hperm⟩

theorem trip_resolve_lowest_open_trip_witness :
    trip_by_barkod "CAN100" none egTwoTripDB = some (1, 2) ∧
    ∃ h ∈ egTwoTripDB.headers, h.id = 1 ∧ h.pkgs_total = 2 ∧
      IsCandidate "CAN100" none h ∧
      ∀ g ∈ egTwoTripDB.headers, IsCandidate "CAN100" none g → 1 ≤ g.id := by
  have h1 : trip_by_barkod "CAN100" none egTwoTripDB = some (1, 2) := rfl
  exact ⟨h1, trip_resolve_lowest_open_trip.1 egTwoTripDB "CAN100" none 1 2 h1⟩

theorem insert_backorder_merges_witness :
    (∀ b ∈ initDB.backorders, b.id < initDB.nextBackorderId) ∧
    openRowsFor initDB "SO1" "A" = [] ∧
    openRowsFor (insert_backorder "SO1" 7 1 "A" 3 none egNow2
        (insert_backorder "SO1" 7 1 "A" 2 none egNow initDB)) "SO1" "A" =
      [⟨1, "SO1", 7, 1, "A", 2 + 3, none, false, egNow, none⟩] := by
  have h1 : ∀ b ∈ initDB.backorders, b.id < initDB.nextBackorderId := by
    intro b hb
    cases hb
  have h2 : openRowsFor initDB "SO1" "A" = [] := rfl
  exact ⟨h1, h2, insert_backorder_merges.2.2 initDB "SO1" 7 1 7 1 "A" 2 3 none none
    egNow egNow2 h1 h2⟩

theorem add_shipment_accumulates_witness :
    findLine egShipOnce "SO1" "A" = some egLine ∧
    ∃ r', findLine (add_shipment_many "SO1" "A" [(1, 10, 3, egNow1)] egShipOnce)
        "SO1" "A" = some r' ∧
      r'.invoiced_qty = egLine.invoiced_qty ∧
      r'.qty_shipped = egLine.qty_shipped +
        (([(1, 10, 3, egNow1)] : List (Int × Rat × Rat × DateTime)).map
          (fun c => c.2.2.1)).sum := by
  have h1 : findLine egShipOnce "SO1" "A" = some egLine := rfl
  exact ⟨h1, add_shipment_accumulates.2.2 "SO1" "A" [(1, 10, 3, egNow1)]
    egShipOnce egLine h1⟩

theorem fulfilled_never_reverts_witness :
    FulfilledAt egBackFulfilled 1 ∧ FulfilledAt egBackAfter 1 := by
  have hstep : Step egBackFulfilled egBackAfter :=
    Step.insertBackorder "SO1" 7 1 "A" 3 none egNow2 egBackFulfilled
  have hf : FulfilledAt egBackFulfilled 1 := by
    show ∃ b ∈ egBackFulfilled.backorders, b.id = 1 ∧ b.fulfilled = true
    decide
  exact ⟨hf, fulfilled_never_reverts (Relation.ReflTransGen.single hstep) 1 hf⟩

theorem upsert_header_frame_witness :
    getHeaderByKey egClosedTripDB "2025-01-02" "SO1" = some egClosedHeader ∧
    ∃ H', getHeaderByKey (upsert_header "SO1" "2025-01-02" 5 "X" "Y" "Z" "W"
        (some "OTHER") egNow2 egClosedTripDB) "2025-01-02" "SO1" = some H' ∧
      H'.id = egClosedHeader.id ∧ H'.trip_date = egClosedHeader.trip_date ∧
      H'.order_no = egClosedHeader.order_no ∧
      H'.customer_code = egClosedHeader.customer_code ∧
      H'.customer_name = egClosedHeader.customer_name ∧
      H'.region = egClosedHeader.region ∧ H'.address1 = egClosedHeader.address1 ∧
      H'.pkgs_loaded = egClosedHeader.pkgs_loaded ∧
      H'.loaded_at = egClosedHeader.loaded_at ∧
      H'.en_route = egClosedHeader.en_route ∧
      H'.qr_token = egClosedHeader.qr_token ∧
      H'.printed = egClosedHeader.printed ∧
      H'.created_at = egClosedHeader.created_at ∧
      H'.invoice_root = (match egClosedHeader.invoice_root with
        | some r => some r
        | none => some "OTHER") := by
  have h1 : getHeaderByKey egClosedTripDB "2025-01-02" "SO1" = some egClosedHeader :=
    rfl
  exact ⟨h1, upsert_header_frame "2025-01-02" "SO1" 5 "X" "Y" "Z" "W" (some "OTHER")
    egNow2 h1⟩

end WMS
